import Mathlib

/-!
# kobato: JSON value and recursive-descent parser

A shallow embedding of `src/kobato.h`.

* `std::string` is a `List Char`; `s[i]` is `charAt s i` (the terminating
  `'\0'` is what `s[s.size()]` reads).
* `Value` is the tagged union, one constructor per `Type` tag.  `Object` is a
  `std::map`: an association list kept in ascending key order by `mapSet`.
* Every parser production takes the text, the cursor and the target value and
  gives back an `Outcome`: the returned `Error` with the cursor and the target
  as the call leaves them, or the exception `std::stod` raised.
* `double` is not modelled.  The numeric conversion done by `std::stod` is the
  parameter `strtod` (`none` when the conversion reports a range error), the
  text that `operator<<` prints for a double is the parameter `fmt`.
* A `Value` is copied by `Copy`, which tests the `type_` of the target where
  the source is an Object, an Array or a String.  `operator=` runs it on a
  constructed target; the copy constructor `Value(const Value&)` runs it on a
  target whose `type_` it has not initialised.  `push_back(v)` and the
  containers copied by `object[key] = v` construct their elements with the
  copy constructor, so a parse that gets there with such a source has no
  defined behaviour: `Outcome.undefined` (`Value.copyConstructs`,
  `Value.assigns`).
* Loops run on a fuel argument.  The scanning loops get as much fuel as there
  are characters left, which is exact.  The element loops and the nesting of
  `ParseHelper` answer `Outcome.outOfFuel` when the fuel is used up; with the
  fuel that `Parse` gives this never happens (`Parse_ne_outOfFuel`).
-/

namespace kobato

/-- The `enum Error` of the source. -/
inductive Error where
  | kOK
  | kInvalidToken
deriving DecidableEq, Repr

/-- The tagged union `class Value`; the constructor is the `type_` tag. -/
inductive Value (Num : Type) where
  | Object (o : List (List Char × Value Num))
  | Array (a : List (Value Num))
  | String (s : List Char)
  | Number (n : Num)
  | Boolean (b : Bool)
  | Null
  | Uninitialized

/-- The two exceptions of `std::stod`. -/
inductive StodException where
  | invalid_argument
  | out_of_range
deriving DecidableEq, Repr

/-- What a call of a parser production does: it returns `err` leaving the
cursor and the target value as given, or `std::stod` throws, or an `assert`
of `Get<T>` fails, or the model runs out of fuel, or the copy constructor
`Value(const Value&)` reads the `type_` that it never initialises, from where
on the behaviour of the program is undefined. -/
inductive Outcome (Num : Type) where
  | ret (err : Error) (cursor : Nat) (value : Value Num)
  | thrown (e : StodException)
  | assertFailed
  | outOfFuel
  | undefined

/-- `s[i]`; reading at `s.size()` gives `'\0'`. -/
def charAt (s : List Char) (i : Nat) : Char := s.getD i (Char.ofNat 0)

/-- `s.substr(pos, n)`. -/
def substr (s : List Char) (pos n : Nat) : List Char := (s.drop pos).take n

/-- `isspace` in the "C" locale: space, `\t`, `\n`, `\v`, `\f`, `\r`. -/
def isspace (c : Char) : Bool :=
  c = ' ' || c = '\t' || c = '\n' || c = Char.ofNat 11 || c = Char.ofNat 12 || c = '\r'

/-- `isdigit`. -/
def isdigit (c : Char) : Bool := decide ('0' ≤ c ∧ c ≤ '9')

/-- `toupper` in the "C" locale. -/
def toupper (c : Char) : Char :=
  if 'a' ≤ c ∧ c ≤ 'z' then Char.ofNat (c.toNat - 32) else c

/-- `std::string::operator<`: lexicographic on the characters, a proper prefix
is smaller. -/
def strLess : List Char → List Char → Bool
  | [], [] => false
  | [], _ :: _ => true
  | _ :: _, [] => false
  | a :: as, b :: bs =>
    if a.toNat < b.toNat then true
    else if b.toNat < a.toNat then false
    else strLess as bs

/-- `object[key] = v` on a `std::map<String, Value>` held in ascending key
order: a new key is put in its place, an existing key has its value replaced. -/
def mapSet {V : Type} : List (List Char × V) → List Char → V → List (List Char × V)
  | [], key, v => [(key, v)]
  | (k, w) :: rest, key, v =>
    if strLess key k then (key, v) :: (k, w) :: rest
    else if strLess k key then (k, w) :: mapSet rest key v
    else (k, v) :: rest

/-! ## Copies of a `Value` -/

/-- Whether the copy constructor `Value(const Value&)` copies the value
without reading the `type_` of the object it constructs.  The constructor
calls `Copy` and initialises nothing; `Copy` tests `type_` of the new object
where the source is an Object, an Array or a String, and only writes where it
is a Number, a Boolean, a Null or Uninitialized. -/
def Value.copyConstructs {Num : Type} : Value Num → Bool
  | .Object _ => false
  | .Array _ => false
  | .String _ => false
  | .Number _ => true
  | .Boolean _ => true
  | .Null => true
  | .Uninitialized => true

/-- Whether `operator=` copies the value onto a constructed `Value` without
a read of a `type_` that was never initialised.  `Copy` then runs on an object
whose `type_` is set; for a source that is an Object or an Array the container
copy-constructs the members or elements (`new(&array_) Array(begin, end)`,
`array_ = value.array_`, and the same for `object_`), each with
`Value(const Value&)`. -/
def Value.assigns {Num : Type} : Value Num → Bool
  | .Object o => o.all (fun e => e.2.copyConstructs)
  | .Array a => a.all (fun x => x.copyConstructs)
  | .String _ => true
  | .Number _ => true
  | .Boolean _ => true
  | .Null => true
  | .Uninitialized => true

/-! ## Value::ToString -/

mutual
/-- `Value::ToString`. -/
def Value.ToString {Num : Type} (fmt : Num → List Char) : Value Num → List Char
  | .Null => "null".toList
  | .Boolean b => if b then "true".toList else "false".toList
  | .Number n => fmt n
  | .String s => "\"".toList ++ s ++ "\"".toList
  | .Array a => "[".toList ++ ToStringArray fmt a true ++ "]".toList
  | .Object o => ['{'] ++ ToStringObject fmt o true ++ ['}']
  | .Uninitialized => "<undef>".toList
/-- The `for` loop over `array_`; `first` is `i == 0`. -/
def ToStringArray {Num : Type} (fmt : Num → List Char) : List (Value Num) → Bool → List Char
  | [], _ => []
  | v :: rest, first =>
    (if first then [] else ", ".toList) ++ Value.ToString fmt v ++ ToStringArray fmt rest false
/-- The `for` loop over `object_`; `first` is `it == object_.begin()`. -/
def ToStringObject {Num : Type} (fmt : Num → List Char) :
    List (List Char × Value Num) → Bool → List Char
  | [], _ => []
  | (k, v) :: rest, first =>
    (if first then [] else ", ".toList) ++ ("\"".toList ++ k ++ "\"".toList) ++ ": ".toList
      ++ Value.ToString fmt v ++ ToStringObject fmt rest false
end

/-! ## The parser -/

/-- The loop `while (i < s.size() && p(s[i])) i++;`, giving the final `i`. -/
def scanWhile (p : Char → Bool) (s : List Char) : Nat → Nat → Nat
  | 0, i => i
  | fuel + 1, i =>
    if i < s.length ∧ p (charAt s i) = true then scanWhile p s fuel (i + 1) else i

/-- `SkipSpace`: the cursor after the call. -/
def SkipSpace (s : List Char) (start : Nat) : Nat :=
  scanWhile isspace s (s.length - start) start

/-- The loop `while (i < s.size() && isdigit(s[i])) i++;` of `ParseNumber`. -/
def skipDigits (s : List Char) (i : Nat) : Nat :=
  scanWhile isdigit s (s.length - i) i

/-- The set `hex_digit` of `ParseString`, as `hex_digit.count(c) != 0`. -/
def hex_digit (c : Char) : Bool :=
  decide (c ∈ "0123456789ABCDEF".toList)

/-- The inner loop of `ParseString` after `\u`:
`for (int j = 1; j <= 4 && i + j < s.size(); j++) if (!hex_digit.count(toupper(s[i + j]))) return kInvalidToken;`
It is `false` when the loop returns `kInvalidToken`, `true` when it runs out. -/
def hexLoop (s : List Char) (i : Nat) : Nat → Nat → Bool
  | 0, _ => true
  | fuel + 1, j =>
    if j ≤ 4 ∧ i + j < s.length then
      if hex_digit (toupper (charAt s (i + j))) then hexLoop s i fuel (j + 1) else false
    else true

/-- The characters after which `ParseString` does `continue`. -/
def simpleEscape (c : Char) : Bool :=
  c = '"' || c = '\\' || c = '/' || c = 'b' || c = 'f' || c = 'n' || c = 'r' || c = 't'

/-- The `for (size_t j = start + 1, i = j; i < s.size(); i++)` loop of
`ParseString`, entered at `i`.  The fuel is the number of characters from `i`
on, so with no fuel left `i < s.size()` is false. -/
def ParseStringLoop {Num : Type} (s : List Char) (start j : Nat) : Nat → Nat → Outcome Num
  | 0, _ => .ret .kInvalidToken start (.String [])
  | fuel + 1, i =>
    if i < s.length then
      if charAt s i = '"' then
        .ret .kOK (i + 1) (.String (substr s j (i - j)))
      else if charAt s i = '\\' then
        if i + 1 < s.length then
          if simpleEscape (charAt s (i + 1)) then
            ParseStringLoop s start j fuel (i + 1 + 1)
          else if charAt s (i + 1) = 'u' then
            if hexLoop s (i + 1) 4 1 then ParseStringLoop s start j fuel (i + 1 + 4 + 1)
            else .ret .kInvalidToken start (.String [])
          else ParseStringLoop s start j fuel (i + 1 + 1)
        else ParseStringLoop s start j fuel (i + 1)
      else ParseStringLoop s start j fuel (i + 1)
    else .ret .kInvalidToken start (.String [])

/-- `ParseString`. -/
def ParseString {Num : Type} (s : List Char) (start : Nat) (value : Value Num) : Outcome Num :=
  if charAt s start ≠ '"' then .ret .kInvalidToken start value
  else ParseStringLoop s start (start + 1) (s.length - (start + 1)) (start + 1)

/-- Whether `strtod` finds a subject sequence in `t`: after white space and an
optional sign, a digit, or a dot and a digit, or `inf`/`nan` in any case.
Without one `std::stod` throws `std::invalid_argument`. -/
def stodHasConversion (t : List Char) : Bool :=
  let t := t.dropWhile isspace
  let t := match t with
    | '+' :: r => r
    | '-' :: r => r
    | _ => t
  match t with
  | [] => false
  | c :: r =>
    isdigit c || (c = '.' && isdigit (r.headD ' '))
      || (t.take 3).map toupper = "INF".toList || (t.take 3).map toupper = "NAN".toList

/-- `std::stod`: `std::invalid_argument` when no conversion can be done,
`std::out_of_range` when the conversion `strtod` reports a range error. -/
def stod {Num : Type} (strtod : List Char → Option Num) (t : List Char) :
    Except StodException Num :=
  if stodHasConversion t then
    match strtod t with
    | some d => .ok d
    | none => .error .out_of_range
  else .error .invalid_argument

/-- `ParseNumber` from the label `Exit` on. -/
def ParseNumberExit {Num : Type} (strtod : List Char → Option Num) (s : List Char) (j i : Nat) :
    Outcome Num :=
  match stod strtod (substr s j (i - j)) with
  | .ok d => .ret .kOK i (.Number d)
  | .error e => .thrown e

/-- `ParseNumber` from `if (toupper(s[i]) == 'E')` on. -/
def ParseNumberExp {Num : Type} (strtod : List Char → Option Num) (s : List Char) (j i : Nat)
    (value : Value Num) : Outcome Num :=
  if toupper (charAt s i) = 'E' then
    if i + 1 ≥ s.length then .ret .kInvalidToken (i + 1) value
    else if charAt s (i + 1) = '+' ∨ charAt s (i + 1) = '-' then
      if i + 1 + 1 ≥ s.length then .ret .kInvalidToken (i + 1 + 1) value
      else ParseNumberExit strtod s j (skipDigits s (i + 1 + 1))
    else ParseNumberExit strtod s j (skipDigits s (i + 1))
  else ParseNumberExit strtod s j i

/-- `ParseNumber` from `if (i >= s.size()) goto Exit;` (before the dot) on. -/
def ParseNumberFrac {Num : Type} (strtod : List Char → Option Num) (s : List Char) (j i : Nat)
    (value : Value Num) : Outcome Num :=
  if i ≥ s.length then ParseNumberExit strtod s j i
  else if charAt s i = '.' then
    if i + 1 ≥ s.length then .ret .kInvalidToken (i + 1) value
    else if skipDigits s (i + 1) ≥ s.length then ParseNumberExit strtod s j (skipDigits s (i + 1))
    else ParseNumberExp strtod s j (skipDigits s (i + 1)) value
  else ParseNumberExp strtod s j i value

/-- `ParseNumber` from `if (s[i] == '0')` on. -/
def ParseNumberInt {Num : Type} (strtod : List Char → Option Num) (s : List Char) (j i : Nat)
    (value : Value Num) : Outcome Num :=
  if charAt s i = '0' then ParseNumberFrac strtod s j (i + 1) value
  else if charAt s i ≥ '1' ∧ charAt s i ≤ '9' then
    if i + 1 ≥ s.length then .ret .kInvalidToken (i + 1) value
    else ParseNumberFrac strtod s j (skipDigits s (i + 1)) value
  else ParseNumberFrac strtod s j i value

/-- `ParseNumber`. -/
def ParseNumber {Num : Type} (strtod : List Char → Option Num) (s : List Char) (start : Nat)
    (value : Value Num) : Outcome Num :=
  if charAt s start = '-' then
    if start + 1 ≥ s.length then .ret .kInvalidToken (start + 1) value
    else ParseNumberInt strtod s start (start + 1) value
  else ParseNumberInt strtod s start start value

/-- The table `token_info` of `ParseOthers`. -/
def token_info {Num : Type} : List (List Char × Value Num) :=
  [("true".toList, .Boolean true), ("false".toList, .Boolean false), ("null".toList, .Null)]

/-- The `for (auto& t : token_info)` loop of `ParseOthers` over the entries
that are left. -/
def ParseOthersLoop {Num : Type} (s : List Char) (start : Nat) (value : Value Num) :
    List (List Char × Value Num) → Outcome Num
  | [] => .ret .kInvalidToken start value
  | (name, v) :: rest =>
    if start + name.length - 1 < s.length ∧ substr s start name.length = name then
      .ret .kOK (start + name.length) v
    else ParseOthersLoop s start value rest

/-- `ParseOthers`. -/
def ParseOthers {Num : Type} (s : List Char) (start : Nat) (value : Value Num) : Outcome Num :=
  ParseOthersLoop s start value token_info

/-- The `while (i < s.size())` loop of `ParseArray` and the two lines after
it.  `helper` is `ParseHelper`, `start` the cursor of the caller (already
advanced past `[`), `a` the elements pushed so far.  `push_back(v)`
copy-constructs `v` into the storage of the vector: the element is `v` when
the copy constructor copies `v`, and the behaviour is undefined when it reads
the `type_` it did not initialise. -/
def ParseArrayLoop {Num : Type} (helper : List Char → Nat → Value Num → Outcome Num)
    (s : List Char) (start : Nat) : Nat → Nat → List (Value Num) → Outcome Num
  | 0, _, _ => .outOfFuel
  | fuel + 1, i, a =>
    if i < s.length then
      if SkipSpace s i ≥ s.length then .ret .kInvalidToken start (.Array a)
      else if charAt s (SkipSpace s i) = ']' then .ret .kOK (SkipSpace s i + 1) (.Array a)
      else
        match helper s (SkipSpace s i) .Uninitialized with
        | .ret .kOK i1 v =>
          if v.copyConstructs = false then .undefined
          else if SkipSpace s i1 ≥ s.length then .ret .kInvalidToken start (.Array (a ++ [v]))
          else if charAt s (SkipSpace s i1) = ',' then
            ParseArrayLoop helper s start fuel (SkipSpace s i1 + 1) (a ++ [v])
          else ParseArrayLoop helper s start fuel (SkipSpace s i1) (a ++ [v])
        | .ret err _ _ => .ret err start (.Array a)
        | .thrown e => .thrown e
        | .assertFailed => .assertFailed
        | .outOfFuel => .outOfFuel
        | .undefined => .undefined
    else .ret .kOK i (.Array a)

/-- `ParseArray`. -/
def ParseArray {Num : Type} (helper : List Char → Nat → Value Num → Outcome Num)
    (s : List Char) (start : Nat) (value : Value Num) : Outcome Num :=
  if charAt s start ≠ '[' then .ret .kInvalidToken start value
  else ParseArrayLoop helper s (start + 1) (s.length + 1) (start + 1) []

/-- The `while (i < s.size())` loop of `ParseObject` and the two lines after
it.  `helper` is `ParseHelper`, `start` the cursor of the caller (already
advanced past `{`), `o` the map built so far.  `object[key] = v` assigns `v`
to the `Value` that `operator[]` finds or default-constructs: the member is
`v` when `operator=` copies `v`, and the behaviour is undefined when a
`type_` that was not initialised is read on the way. -/
def ParseObjectLoop {Num : Type} (helper : List Char → Nat → Value Num → Outcome Num)
    (s : List Char) (start : Nat) :
    Nat → Nat → List (List Char × Value Num) → Outcome Num
  | 0, _, _ => .outOfFuel
  | fuel + 1, i, o =>
    if i < s.length then
      if SkipSpace s i ≥ s.length then .ret .kInvalidToken start (.Object o)
      else if charAt s (SkipSpace s i) = '}' then .ret .kOK (SkipSpace s i + 1) (.Object o)
      else
        match ParseString s (SkipSpace s i) (.Uninitialized : Value Num) with
        | .ret .kOK i1 string =>
          if SkipSpace s i1 ≥ s.length ∨ charAt s (SkipSpace s i1) ≠ ':' then
            .ret .kInvalidToken start (.Object o)
          else if SkipSpace s (SkipSpace s i1 + 1) ≥ s.length then
            .ret .kInvalidToken start (.Object o)
          else
            match helper s (SkipSpace s (SkipSpace s i1 + 1)) .Uninitialized with
            | .ret .kOK i2 v =>
              match string with
              | .String key =>
                if v.assigns = false then .undefined
                else if SkipSpace s i2 ≥ s.length then
                  .ret .kInvalidToken start (.Object (mapSet o key v))
                else if charAt s (SkipSpace s i2) = ',' then
                  ParseObjectLoop helper s start fuel (SkipSpace s i2 + 1) (mapSet o key v)
                else ParseObjectLoop helper s start fuel (SkipSpace s i2) (mapSet o key v)
              | _ => .assertFailed
            | .ret err _ _ => .ret err start (.Object o)
            | .thrown e => .thrown e
            | .assertFailed => .assertFailed
            | .outOfFuel => .outOfFuel
            | .undefined => .undefined
        | .ret err _ _ => .ret err start (.Object o)
        | .thrown e => .thrown e
        | .assertFailed => .assertFailed
        | .outOfFuel => .outOfFuel
        | .undefined => .undefined
    else .ret .kOK i (.Object o)

/-- `ParseObject`. -/
def ParseObject {Num : Type} (helper : List Char → Nat → Value Num → Outcome Num)
    (s : List Char) (start : Nat) (value : Value Num) : Outcome Num :=
  if charAt s start ≠ '{' then .ret .kInvalidToken start value
  else ParseObjectLoop helper s (start + 1) (s.length + 1) (start + 1) []

/-- `ParseHelper`.  The fuel bounds the nesting depth of the calls. -/
def ParseHelper {Num : Type} (strtod : List Char → Option Num) :
    Nat → List Char → Nat → Value Num → Outcome Num
  | 0, _, _, _ => .outOfFuel
  | fuel + 1, s, start, value =>
    if SkipSpace s start ≥ s.length then .ret .kOK (SkipSpace s start) value
    else if charAt s (SkipSpace s start) = '"' then ParseString s (SkipSpace s start) value
    else if isdigit (charAt s (SkipSpace s start)) = true ∨ charAt s (SkipSpace s start) = '-' then
      ParseNumber strtod s (SkipSpace s start) value
    else if charAt s (SkipSpace s start) = '[' then
      ParseArray (ParseHelper strtod fuel) s (SkipSpace s start) value
    else if charAt s (SkipSpace s start) = '{' then
      ParseObject (ParseHelper strtod fuel) s (SkipSpace s start) value
    else ParseOthers s (SkipSpace s start) value

/-- `Parse`.  No text nests deeper than it is long. -/
def Parse {Num : Type} (strtod : List Char → Option Num) (s : List Char) (value : Value Num) :
    Outcome Num :=
  ParseHelper strtod (s.length + 1) s 0 value

/-! ## The grammar of the specification -/

/-- A hex digit of the grammar: `0-9`, `a-f`, `A-F`. -/
def isHexDigit (c : Char) : Bool :=
  decide (c ∈ "0123456789abcdefABCDEF".toList)

/-- What may stand between the quotes of a well-formed string: characters other
than `"` and `\`, the escapes `\"  \\  \/  \b  \f  \n  \r  \t`, and `\u` with
four hex digits. -/
def wellFormedBody : List Char → Bool
  | [] => true
  | c :: r =>
    if c = '"' then false
    else if c = '\\' then
      match r with
      | [] => false
      | e :: r1 =>
        if simpleEscape e then wellFormedBody r1
        else if e = 'u' then
          match r1 with
          | h1 :: h2 :: h3 :: h4 :: r2 =>
            isHexDigit h1 && isHexDigit h2 && isHexDigit h3 && isHexDigit h4 && wellFormedBody r2
          | _ => false
        else false
    else wellFormedBody r

/-- The text of a quoted string with body `b`. -/
def quoted (b : List Char) : List Char := '"' :: b ++ ['"']

/-- A stand-in for the conversion to `double` where an example needs one: the
number is kept as the text that was converted, no text is out of range. -/
def textDouble : List Char → Option (List Char) := fun t => some t

/-- The printing of the stand-in `textDouble`: the text itself. -/
def textFormat : List Char → List Char := fun t => t

/-- Whether `w` is made of `isspace` characters only. -/
def allSpace (w : List Char) : Bool := w.all isspace

/-- The three keywords of the grammar. -/
inductive Keyword where
  | true
  | false
  | null
deriving DecidableEq, Repr

/-- The text of a keyword. -/
def Keyword.text : Keyword → List Char
  | .true => "true".toList
  | .false => "false".toList
  | .null => "null".toList

/-- The value a keyword stands for. -/
def Keyword.value {Num : Type} : Keyword → Value Num
  | .true => .Boolean Bool.true
  | .false => .Boolean Bool.false
  | .null => .Null

/-- The texts `xs` joined by `sep`. -/
def joinSep (sep : List Char) : List (List Char) → List Char
  | [] => []
  | [x] => x
  | x :: y :: rest => x ++ sep ++ joinSep sep (y :: rest)

/-- What may follow the text of an element or member value: a comma, a closing
bracket or whitespace. -/
def Delimited : List Char → Bool
  | [] => Bool.false
  | c :: _ => c = ',' || c = ']' || c = '}' || isspace c

/-- The text `t` is a value text for `v`: wherever `t` stands in front of a
delimiter, `ParseHelper` (allowed a nesting depth above the length of `t`)
entered at its first character on a fresh target returns `kOK` with the
cursor behind `t` and the target holding `v`. -/
def ParsesAs {Num : Type} (strtod : List Char → Option Num) (t : List Char) (v : Value Num) :
    Prop :=
  ∀ (fuel : Nat) (s : List Char) (i : Nat) (post : List Char), t.length < fuel →
    s.drop i = t ++ post → Delimited post = Bool.true →
    ParseHelper strtod fuel s i .Uninitialized = .ret .kOK (i + t.length) v

/-- An array element as written: whitespace, the value text, whitespace. -/
structure Elem (Num : Type) where
  before : List Char
  text : List Char
  after : List Char
  value : Value Num

/-- The element is written with whitespace where whitespace is meant and its
text is a value text for its value. -/
def Elem.Parses {Num : Type} (strtod : List Char → Option Num) (e : Elem Num) : Prop :=
  allSpace e.before = Bool.true ∧ ParsesAs strtod e.text e.value ∧ allSpace e.after = Bool.true

/-- The elements as written, a comma between two of them. -/
def elemsText {Num : Type} : List (Elem Num) → List Char
  | [] => []
  | [e] => e.before ++ e.text ++ e.after
  | e :: e2 :: rest => e.before ++ e.text ++ e.after ++ ',' :: elemsText (e2 :: rest)

/-- The elements with texts `l` written the way `ToString` spaces them: no
whitespace but one blank after each comma. -/
def spacedElems {Num : Type} : Bool → List (List Char × Value Num) → List (Elem Num)
  | _, [] => []
  | first, (t, v) :: rest =>
    { before := if first then [] else [' '], text := t, after := [], value := v } ::
      spacedElems Bool.false rest

/-- Whether a `"` that is not escaped occurs in the text behind an opening
quote; the character behind a backslash is escaped. -/
def hasUnescapedQuote : List Char → Bool
  | [] => Bool.false
  | c :: r =>
    if c = '"' then Bool.true
    else if c = '\\' then
      match r with
      | [] => Bool.false
      | _ :: r1 => hasUnescapedQuote r1
    else hasUnescapedQuote r

/-- What `ParseString` scans over between the quotes: characters other than
`"` and `\`, a backslash and any one character other than `u`, and `\u` with
four hex digits. -/
def scannedBody : List Char → Bool
  | [] => Bool.true
  | c :: r =>
    if c = '"' then Bool.false
    else if c = '\\' then
      match r with
      | [] => Bool.false
      | e :: r1 =>
        if e = 'u' then
          match r1 with
          | h1 :: h2 :: h3 :: h4 :: r2 =>
            isHexDigit h1 && isHexDigit h2 && isHexDigit h3 && isHexDigit h4 && scannedBody r2
          | _ => Bool.false
        else scannedBody r1
    else scannedBody r

/-- Whether the text starts with four hex digits. -/
def startsFourHex : List Char → Bool
  | h1 :: h2 :: h3 :: h4 :: _ => isHexDigit h1 && isHexDigit h2 && isHexDigit h3 && isHexDigit h4
  | _ => Bool.false

/-- What the loops of `ParseArray` and `ParseObject` need of the `ParseHelper`
they call on the text `s`: a call that returns `kOK` in front of a character
has moved the cursor forward, not past the end. -/
def GoodHelper {Num : Type} (helper : List Char → Nat → Value Num → Outcome Num)
    (s : List Char) : Prop :=
  ∀ (k j : Nat) (v : Value Num), helper s k .Uninitialized = .ret .kOK j v →
    SkipSpace s k < s.length → SkipSpace s k < j ∧ j ≤ s.length

theorem drop_cons_info {s : List Char} {i : Nat} {c : Char} {r : List Char}
    (h : s.drop i = c :: r) : i < s.length ∧ charAt s i = c ∧ s.drop (i + 1) = r := by
  have hlt : i < s.length := by
    by_contra hge
    rw [List.drop_eq_nil_of_le (Nat.le_of_not_lt hge)] at h
    cases h
  refine ⟨hlt, ?_, ?_⟩
  · have h0 : (s.drop i)[0]? = some c := by rw [h]; simp
    rw [List.getElem?_drop] at h0
    simp only [Nat.add_zero] at h0
    simp [charAt, List.getD_eq_getElem?_getD, h0]
  · have h1 : s.drop (i + 1) = (s.drop i).drop 1 := by
      rw [List.drop_drop, Nat.add_comm]
    rw [h1, h]; rfl

theorem drop_append_info {s : List Char} {i : Nat} (a b : List Char)
    (h : s.drop i = a ++ b) : s.drop (i + a.length) = b := by
  have h1 : s.drop (i + a.length) = (s.drop i).drop a.length := by
    rw [List.drop_drop, Nat.add_comm]
  rw [h1, h, List.drop_left]

theorem length_of_drop {s : List Char} {i : Nat} {r : List Char} (hi : i ≤ s.length)
    (h : s.drop i = r) : s.length = i + r.length := by
  have := List.length_drop i s
  rw [h] at this
  omega

theorem le_length_of_drop_cons {s : List Char} {i : Nat} {c : Char} {r : List Char}
    (h : s.drop i = c :: r) : s.length = i + (r.length + 1) := by
  have hlt := (drop_cons_info h).1
  have := length_of_drop (Nat.le_of_lt hlt) h
  simpa using this

/-! ## The scanning loops -/

theorem scanWhile_stop (p : Char → Bool) (s : List Char) (fuel i : Nat)
    (h : ¬ (i < s.length ∧ p (charAt s i) = true)) : scanWhile p s fuel i = i := by
  cases fuel with
  | zero => rfl
  | succ n => simp only [scanWhile, if_neg h]

theorem SkipSpace_of_ge {s : List Char} {i : Nat} (h : s.length ≤ i) : SkipSpace s i = i := by
  unfold SkipSpace
  exact scanWhile_stop _ _ _ _ (fun hh => absurd hh.1 (Nat.not_lt.mpr h))

theorem SkipSpace_step {s : List Char} {i : Nat} (hlt : i < s.length)
    (hc : isspace (charAt s i) = true) : SkipSpace s i = SkipSpace s (i + 1) := by
  unfold SkipSpace
  have hf : s.length - i = (s.length - (i + 1)) + 1 := by omega
  rw [hf]
  simp only [scanWhile, hlt, hc, and_self, if_true]

theorem SkipSpace_of_not_space {s : List Char} {i : Nat} {c : Char} {r : List Char}
    (h : s.drop i = c :: r) (hc : isspace c = false) : SkipSpace s i = i := by
  unfold SkipSpace
  apply scanWhile_stop
  rw [(drop_cons_info h).2.1, hc]
  simp

theorem SkipSpace_skip {s : List Char} (w : List Char) :
    ∀ {i : Nat} {r : List Char}, s.drop i = w ++ r → (∀ c ∈ w, isspace c = true) →
      SkipSpace s i = SkipSpace s (i + w.length) := by
  induction w with
  | nil => intro i r _ _; rfl
  | cons c w ih =>
    intro i r h hw
    have hinfo := drop_cons_info (r := w ++ r) (by simpa using h)
    have hc : isspace (charAt s i) = true := by
      rw [hinfo.2.1]; exact hw c (List.mem_cons_self _ _)
    rw [SkipSpace_step hinfo.1 hc, ih hinfo.2.2 (fun d hd => hw d (List.mem_cons_of_mem _ hd))]
    congr 1
    simp only [List.length_cons]
    omega

theorem SkipSpace_ws_then {s : List Char} {i : Nat} {w : List Char} {c : Char} {r : List Char}
    (h : s.drop i = w ++ c :: r) (hw : ∀ d ∈ w, isspace d = true) (hc : isspace c = false) :
    SkipSpace s i = i + w.length := by
  rw [SkipSpace_skip w h hw]
  exact SkipSpace_of_not_space (drop_append_info w (c :: r) h) hc

theorem SkipSpace_ws_end {s : List Char} {i : Nat} {w : List Char} (hi : i ≤ s.length)
    (h : s.drop i = w) (hw : ∀ d ∈ w, isspace d = true) : SkipSpace s i = s.length := by
  have hlen := length_of_drop hi h
  rw [SkipSpace_skip w (r := []) (by simpa using h) hw]
  rw [SkipSpace_of_ge (by omega)]
  omega

theorem SkipSpace_idem_of_not_space {s : List Char} {i : Nat}
    (hc : isspace (charAt s (SkipSpace s i)) = false) : SkipSpace s (SkipSpace s i) = SkipSpace s i := by
  unfold SkipSpace at hc ⊢
  apply scanWhile_stop
  rw [hc]
  simp

/-! ## Strings -/

theorem hex_digit_toupper_all :
    ∀ c ∈ "0123456789abcdefABCDEF".toList, hex_digit (toupper c) = true := by
  decide

theorem hex_digit_toupper {c : Char} (h : isHexDigit c = true) : hex_digit (toupper c) = true :=
  hex_digit_toupper_all c (by simpa [isHexDigit] using h)

theorem hexLoop_ok {s : List Char} {i : Nat} {h1 h2 h3 h4 : Char} {r : List Char}
    (h : s.drop (i + 1) = h1 :: h2 :: h3 :: h4 :: r)
    (x1 : isHexDigit h1 = true) (x2 : isHexDigit h2 = true) (x3 : isHexDigit h3 = true)
    (x4 : isHexDigit h4 = true) : hexLoop s i 4 1 = true := by
  have a1 := drop_cons_info h
  have a2 := drop_cons_info a1.2.2
  have a3 := drop_cons_info a2.2.2
  have a4 := drop_cons_info a3.2.2
  have l1 := a1.1
  have l2 := a2.1
  have l3 := a3.1
  have l4 := a4.1
  have c1 := a1.2.1
  have c2 := a2.2.1
  have c3 := a3.2.1
  have c4 := a4.2.1
  simp only [hexLoop, Nat.add_assoc, Nat.reduceAdd] at *
  simp [l1, l2, l3, l4, c1, c2, c3, c4, hex_digit_toupper x1, hex_digit_toupper x2,
    hex_digit_toupper x3, hex_digit_toupper x4]

theorem wellFormedBody_quote (r : List Char) : wellFormedBody ('"' :: r) = false := by
  unfold wellFormedBody; simp

theorem wellFormedBody_plain {c : Char} (r : List Char) (hq : c ≠ '"') (hb : c ≠ '\\') :
    wellFormedBody (c :: r) = wellFormedBody r := by
  conv => lhs; unfold wellFormedBody
  simp [hq, hb]

theorem wellFormedBody_backslash_end : wellFormedBody ['\\'] = false := by
  unfold wellFormedBody; simp

theorem wellFormedBody_escape {e : Char} (r : List Char) (he : simpleEscape e = true) :
    wellFormedBody ('\\' :: e :: r) = wellFormedBody r := by
  conv => lhs; unfold wellFormedBody
  simp [he]

theorem wellFormedBody_other {e : Char} (r : List Char) (he : simpleEscape e = false)
    (hu : e ≠ 'u') : wellFormedBody ('\\' :: e :: r) = false := by
  unfold wellFormedBody; simp [he, hu]

theorem wellFormedBody_unicode (h1 h2 h3 h4 : Char) (r : List Char) :
    wellFormedBody ('\\' :: 'u' :: h1 :: h2 :: h3 :: h4 :: r) =
      (isHexDigit h1 && isHexDigit h2 && isHexDigit h3 && isHexDigit h4 && wellFormedBody r) := by
  conv => lhs; unfold wellFormedBody
  simp [simpleEscape]

theorem wellFormedBody_unicode_short (r : List Char) (h : r.length < 4) :
    wellFormedBody ('\\' :: 'u' :: r) = false := by
  unfold wellFormedBody
  rcases r with _ | ⟨h1, _ | ⟨h2, _ | ⟨h3, _ | ⟨h4, r2⟩⟩⟩⟩
  · simp [simpleEscape]
  · simp [simpleEscape]
  · simp [simpleEscape]
  · simp [simpleEscape]
  · simp at h; omega

theorem ParseStringLoop_ok (Num : Type) (n : Nat) :
    ∀ (b : List Char), b.length = n → ∀ (s : List Char) (start j fuel i : Nat) (post : List Char),
      wellFormedBody b = true → s.drop i = b ++ '"' :: post → b.length + 1 ≤ fuel →
      (ParseStringLoop s start j fuel i : Outcome Num) =
        .ret .kOK (i + b.length + 1) (.String (substr s j (i + b.length - j))) := by
  induction n using Nat.strong_induction_on with
  | _ n ih =>
    intro b hn s start j fuel i post hwf hs hfuel
    obtain ⟨f, rfl⟩ : ∃ f, fuel = f + 1 := ⟨fuel - 1, by omega⟩
    cases b with
    | nil =>
      have hi := drop_cons_info (by simpa using hs : s.drop i = '"' :: post)
      simp [ParseStringLoop, hi.1, hi.2.1]
    | cons c r =>
      have hi := drop_cons_info (by simpa using hs : s.drop i = c :: (r ++ '"' :: post))
      simp only [List.length_cons] at hn hfuel
      by_cases hq : c = '"'
      · subst hq; rw [wellFormedBody_quote] at hwf; cases hwf
      by_cases hb : c = '\\'
      · subst hb
        cases r with
        | nil => rw [wellFormedBody_backslash_end] at hwf; cases hwf
        | cons e r1 =>
          have hi1 := drop_cons_info hi.2.2
          simp only [List.length_cons] at hn hfuel
          by_cases he : simpleEscape e = true
          · rw [wellFormedBody_escape r1 he] at hwf
            have := ih r1.length (by omega) r1 rfl s start j f (i + 1 + 1) post hwf
              (by simpa using hi1.2.2) (by omega)
            simp only [ParseStringLoop, hi.1, hi.2.1, hi1.1, hi1.2.1, he, if_true]
            simp only [this, List.length_cons]
            simp
            constructor
            · omega
            · congr 1; omega
          · have he : simpleEscape e = false := by simpa using he
            by_cases hu : e = 'u'
            · subst hu
              rcases r1 with _ | ⟨h1, _ | ⟨h2, _ | ⟨h3, _ | ⟨h4, r2⟩⟩⟩⟩
              · rw [wellFormedBody_unicode_short _ (by simp)] at hwf; cases hwf
              · rw [wellFormedBody_unicode_short _ (by simp)] at hwf; cases hwf
              · rw [wellFormedBody_unicode_short _ (by simp)] at hwf; cases hwf
              · rw [wellFormedBody_unicode_short _ (by simp)] at hwf; cases hwf
              · rw [wellFormedBody_unicode] at hwf
                simp only [Bool.and_eq_true] at hwf
                obtain ⟨⟨⟨⟨x1, x2⟩, x3⟩, x4⟩, hwf2⟩ := hwf
                have hhex := hexLoop_ok (i := i + 1) (by simpa using hi1.2.2) x1 x2 x3 x4
                have hd : s.drop (i + 1 + 4 + 1) = r2 ++ '"' :: post := by
                  have := drop_append_info (s := s) (i := i + 1 + 1) [h1, h2, h3, h4]
                    (r2 ++ '"' :: post) (by simpa using hi1.2.2)
                  simpa [Nat.add_assoc] using this
                simp only [List.length_cons] at hn hfuel
                have := ih r2.length (by omega) r2 rfl s start j f (i + 1 + 4 + 1) post
                  hwf2 hd (by omega)
                simp only [ParseStringLoop, hi.1, hi.2.1, hi1.1, hi1.2.1, he, hhex, if_true]
                simp only [this, List.length_cons]
                simp
                constructor
                · omega
                · congr 1; omega
            · rw [wellFormedBody_other r1 he hu] at hwf; cases hwf
      · rw [wellFormedBody_plain r hq hb] at hwf
        have := ih r.length (by omega) r rfl s start j f (i + 1) post hwf
          (by simpa using hi.2.2) (by omega)
        simp only [ParseStringLoop, hi.1, hi.2.1, hq, hb, if_true, if_false]
        simp only [this, List.length_cons]
        simp
        constructor
        · omega
        · congr 1; omega

/-- `ParseString` on a well-formed quoted string: `kOK`, the cursor behind the
closing quote, the body stored as written. -/
theorem ParseString_ok {Num : Type} (value : Value Num) (s : List Char) (start : Nat)
    (b post : List Char) (hs : s.drop start = '"' :: (b ++ '"' :: post))
    (hwf : wellFormedBody b = true) :
    ParseString s start value = .ret .kOK (start + b.length + 2) (.String b) := by
  have hi := drop_cons_info hs
  have hlen := le_length_of_drop_cons hs
  simp only [List.length_append, List.length_cons] at hlen
  have h := ParseStringLoop_ok Num b.length b rfl s start (start + 1)
    (s.length - (start + 1)) (start + 1) post hwf hi.2.2 (by omega)
  simp only [ParseString, hi.2.1, ne_eq, not_true_eq_false, if_false, h]
  have hsub : substr s (start + 1) (start + 1 + b.length - (start + 1)) = b := by
    simp only [substr, hi.2.2]
    have : start + 1 + b.length - (start + 1) = b.length := by omega
    rw [this, List.take_left]
  rw [hsub]
  congr 1
  omega

/-! ## Dispatch in `ParseHelper` -/

theorem ParseHelper_succ {Num : Type} (strtod : List Char → Option Num) (fuel : Nat)
    (s : List Char) (start : Nat) (value : Value Num) :
    ParseHelper strtod (fuel + 1) s start value =
      if SkipSpace s start ≥ s.length then .ret .kOK (SkipSpace s start) value
      else if charAt s (SkipSpace s start) = '"' then ParseString s (SkipSpace s start) value
      else if isdigit (charAt s (SkipSpace s start)) = true ∨ charAt s (SkipSpace s start) = '-' then
        ParseNumber strtod s (SkipSpace s start) value
      else if charAt s (SkipSpace s start) = '[' then
        ParseArray (ParseHelper strtod fuel) s (SkipSpace s start) value
      else if charAt s (SkipSpace s start) = '{' then
        ParseObject (ParseHelper strtod fuel) s (SkipSpace s start) value
      else ParseOthers s (SkipSpace s start) value := rfl

/-- Leading whitespace: the call at `i` is the call at any cursor with the same
`SkipSpace`. -/
theorem ParseHelper_congr_SkipSpace {Num : Type} (strtod : List Char → Option Num) (fuel : Nat)
    (s : List Char) (i k : Nat) (value : Value Num) (h : SkipSpace s i = SkipSpace s k) :
    ParseHelper strtod fuel s i value = ParseHelper strtod fuel s k value := by
  cases fuel with
  | zero => rfl
  | succ f => rw [ParseHelper_succ, ParseHelper_succ, h]

theorem ParseHelper_quote {Num : Type} (strtod : List Char → Option Num) (fuel : Nat)
    {s : List Char} {i : Nat} {w r : List Char} (value : Value Num)
    (hs : s.drop i = w ++ '"' :: r) (hw : ∀ c ∈ w, isspace c = true) :
    ParseHelper strtod (fuel + 1) s i value = ParseString s (i + w.length) value := by
  have hk := SkipSpace_ws_then hs hw (by decide)
  have hi := drop_cons_info (drop_append_info w _ hs)
  rw [ParseHelper_succ, hk, hi.2.1]
  simp [hi.1]

/-! ## More on `SkipSpace` -/

theorem scanWhile_ge (p : Char → Bool) (s : List Char) :
    ∀ (fuel i : Nat), i ≤ scanWhile p s fuel i := by
  intro fuel
  induction fuel with
  | zero => intro i; exact Nat.le_refl _
  | succ n ih =>
    intro i
    simp only [scanWhile]
    split
    · exact Nat.le_trans (Nat.le_succ i) (ih (i + 1))
    · exact Nat.le_refl _

theorem scanWhile_spec (p : Char → Bool) (s : List Char) :
    ∀ (fuel i : Nat), s.length - i ≤ fuel →
      ¬ (scanWhile p s fuel i < s.length ∧ p (charAt s (scanWhile p s fuel i)) = true) := by
  intro fuel
  induction fuel with
  | zero =>
    intro i hf h
    simp only [scanWhile] at h
    omega
  | succ n ih =>
    intro i hf
    simp only [scanWhile]
    split
    · exact ih (i + 1) (by omega)
    · assumption

theorem SkipSpace_ge_self (s : List Char) (i : Nat) : i ≤ SkipSpace s i :=
  scanWhile_ge _ _ _ _

theorem SkipSpace_spec {s : List Char} {i : Nat} (h : SkipSpace s i < s.length) :
    isspace (charAt s (SkipSpace s i)) = false := by
  have := scanWhile_spec isspace s (s.length - i) i (Nat.le_refl _)
  unfold SkipSpace at h ⊢
  cases hc : isspace (charAt s (scanWhile isspace s (s.length - i) i)) with
  | false => rfl
  | true => exact absurd ⟨h, hc⟩ this

theorem SkipSpace_idem (s : List Char) (i : Nat) : SkipSpace s (SkipSpace s i) = SkipSpace s i := by
  by_cases h : SkipSpace s i < s.length
  · exact SkipSpace_idem_of_not_space (SkipSpace_spec h)
  · exact SkipSpace_of_ge (Nat.le_of_not_lt h)

/-! ## Characters that start no value -/

theorem substr_succ {s : List Char} {k : Nat} (n : Nat) (hk : k < s.length) :
    substr s k (n + 1) = charAt s k :: substr s (k + 1) n := by
  obtain ⟨c, r, hd⟩ : ∃ c r, s.drop k = c :: r := by
    cases hd : s.drop k with
    | nil =>
      have := List.length_drop k s
      rw [hd] at this
      simp at this
      omega
    | cons c r => exact ⟨c, r, rfl⟩
  have hi := drop_cons_info hd
  simp [substr, hd, hi.2.1, hi.2.2]

theorem ParseOthers_invalid {Num : Type} {s : List Char} {k : Nat} (value : Value Num)
    (hk : k < s.length) (ht : charAt s k ≠ 't') (hf : charAt s k ≠ 'f')
    (hn : charAt s k ≠ 'n') : ParseOthers s k value = .ret .kInvalidToken k value := by
  have h4 := substr_succ 3 hk
  have h5 := substr_succ 4 hk
  simp only [Nat.reduceAdd] at h4 h5
  simp [ParseOthers, token_info, ParseOthersLoop, h4, h5, ht, hf, hn]

/-- A character that is no quote, digit, minus or opening bracket and starts no
keyword makes `ParseHelper` return `kInvalidToken`, the target untouched. -/
theorem ParseHelper_invalid_char {Num : Type} (strtod : List Char → Option Num) (fuel : Nat)
    {s : List Char} {i : Nat} (value : Value Num) (hk : SkipSpace s i < s.length)
    (hq : charAt s (SkipSpace s i) ≠ '"') (hd : isdigit (charAt s (SkipSpace s i)) = false)
    (hm : charAt s (SkipSpace s i) ≠ '-') (ha : charAt s (SkipSpace s i) ≠ '[')
    (ho : charAt s (SkipSpace s i) ≠ '{') (ht : charAt s (SkipSpace s i) ≠ 't')
    (hf : charAt s (SkipSpace s i) ≠ 'f') (hn : charAt s (SkipSpace s i) ≠ 'n') :
    ParseHelper strtod (fuel + 1) s i value = .ret .kInvalidToken (SkipSpace s i) value := by
  rw [ParseHelper_succ]
  simp [Nat.not_le.mpr hk, hq, hd, hm, ha, ho, ParseOthers_invalid value hk ht hf hn]

/-- What a successful call of `ParseHelper` that stops inside the text tells
about the cursor it was entered at. -/
theorem ParseHelper_ok_facts {Num : Type} (strtod : List Char → Option Num) {fuel : Nat}
    {s : List Char} {i j : Nat} {v : Value Num}
    (hOK : ParseHelper strtod fuel s i .Uninitialized = .ret .kOK j v) (hj : j < s.length) :
    SkipSpace s i < s.length ∧ charAt s (SkipSpace s i) ≠ ']' ∧
      charAt s (SkipSpace s i) ≠ '}' ∧ charAt s (SkipSpace s i) ≠ ',' ∧
      ParseHelper strtod fuel s (SkipSpace s i) .Uninitialized = .ret .kOK j v := by
  cases fuel with
  | zero => cases hOK
  | succ f =>
    have hk : SkipSpace s i < s.length := by
      by_contra hge
      rw [ParseHelper_succ, if_pos (Nat.le_of_not_lt hge)] at hOK
      injection hOK with _ h2 _
      omega
    have bad : ∀ c : Char, c ≠ '"' → isdigit c = false → c ≠ '-' → c ≠ '[' → c ≠ '{' →
        c ≠ 't' → c ≠ 'f' → c ≠ 'n' → charAt s (SkipSpace s i) ≠ c := by
      intro c h1 h2 h3 h4 h5 h6 h7 h8 hc
      rw [ParseHelper_invalid_char strtod f _ hk (hc ▸ h1) (hc ▸ h2) (hc ▸ h3) (hc ▸ h4) (hc ▸ h5)
        (hc ▸ h6) (hc ▸ h7) (hc ▸ h8)] at hOK
      injection hOK with h _ _
      cases h
    refine ⟨hk, ?_, ?_, ?_, ?_⟩
    · exact bad ']' (by decide) (by decide) (by decide) (by decide) (by decide) (by decide)
        (by decide) (by decide)
    · exact bad '}' (by decide) (by decide) (by decide) (by decide) (by decide) (by decide)
        (by decide) (by decide)
    · exact bad ',' (by decide) (by decide) (by decide) (by decide) (by decide) (by decide)
        (by decide) (by decide)
    · rw [← hOK]
      exact ParseHelper_congr_SkipSpace strtod _ s _ _ _ (SkipSpace_idem s i)

/-! ## Keywords -/

theorem allSpace_iff {w : List Char} : allSpace w = true ↔ ∀ c ∈ w, isspace c = true := by
  simp [allSpace, List.all_eq_true]

theorem Keyword.parsesAs {Num : Type} (strtod : List Char → Option Num) (k : Keyword) :
    ParsesAs strtod k.text (k.value : Value Num) := by
  intro fuel s i post hfuel hs _
  obtain ⟨f, rfl⟩ : ∃ f, fuel = f + 1 := ⟨fuel - 1, by omega⟩
  cases k with
  | true =>
    have hs1 : s.drop i = 't' :: ("rue".toList ++ post) := by simpa [Keyword.text] using hs
    have hi := drop_cons_info hs1
    have hlen := le_length_of_drop_cons hs1
    simp at hlen
    have h3 : i + 3 < s.length := by omega
    have hle : ¬ s.length ≤ i := by omega
    have h0 := SkipSpace_of_not_space hs1 (by decide)
    have hsub : substr s i 4 = "true".toList := by
      simp [substr, hs1]
    rw [ParseHelper_succ, h0, hi.2.1]
    simp [ParseOthers, token_info, ParseOthersLoop, hsub, isdigit, Keyword.text, Keyword.value,
      h3, hle]
  | false =>
    have hs1 : s.drop i = 'f' :: ("alse".toList ++ post) := by simpa [Keyword.text] using hs
    have hi := drop_cons_info hs1
    have hlen := le_length_of_drop_cons hs1
    simp at hlen
    have h3 : i + 4 < s.length := by omega
    have hle : ¬ s.length ≤ i := by omega
    have h0 := SkipSpace_of_not_space hs1 (by decide)
    have hsub4 : substr s i 4 = "fals".toList := by
      simp [substr, hs1]
    have hsub : substr s i 5 = "false".toList := by
      simp [substr, hs1]
    rw [ParseHelper_succ, h0, hi.2.1]
    simp [ParseOthers, token_info, ParseOthersLoop, hsub, hsub4, isdigit, Keyword.text,
      Keyword.value, h3, hle]
  | null =>
    have hs1 : s.drop i = 'n' :: ("ull".toList ++ post) := by simpa [Keyword.text] using hs
    have hi := drop_cons_info hs1
    have hlen := le_length_of_drop_cons hs1
    simp at hlen
    have h3 : i + 3 < s.length := by omega
    have hle : ¬ s.length ≤ i := by omega
    have h0 := SkipSpace_of_not_space hs1 (by decide)
    have hsub : substr s i 4 = "null".toList := by
      simp [substr, hs1]
    have hsub5 : substr s i 5 ≠ "false".toList := by
      simp [substr, hs1]
    rw [ParseHelper_succ, h0, hi.2.1]
    simp [ParseOthers, token_info, ParseOthersLoop, hsub, isdigit, Keyword.text,
      Keyword.value, h3, hle]
    intro _ h5
    exact hsub5 (by rw [h5]; rfl)

/-! ## The loop of `ParseArray` -/

theorem ParseArrayLoop_succ {Num : Type} (helper : List Char → Nat → Value Num → Outcome Num)
    (s : List Char) (start fuel i : Nat) (a : List (Value Num)) :
    ParseArrayLoop helper s start (fuel + 1) i a =
      if i < s.length then
        if SkipSpace s i ≥ s.length then .ret .kInvalidToken start (.Array a)
        else if charAt s (SkipSpace s i) = ']' then .ret .kOK (SkipSpace s i + 1) (.Array a)
        else
          match helper s (SkipSpace s i) .Uninitialized with
          | .ret .kOK i1 v =>
            if v.copyConstructs = false then .undefined
            else if SkipSpace s i1 ≥ s.length then
              .ret .kInvalidToken start (.Array (a ++ [v]))
            else if charAt s (SkipSpace s i1) = ',' then
              ParseArrayLoop helper s start fuel (SkipSpace s i1 + 1) (a ++ [v])
            else ParseArrayLoop helper s start fuel (SkipSpace s i1) (a ++ [v])
          | .ret err _ _ => .ret err start (.Array a)
          | .thrown e => .thrown e
          | .assertFailed => .assertFailed
          | .outOfFuel => .outOfFuel
          | .undefined => .undefined
      else .ret .kOK i (.Array a) := rfl

/-- One turn of the loop of `ParseArray`: the element parses, whitespace and a
character `c` follow; the loop goes on behind the comma if `c` is one, at `c`
otherwise. -/
theorem ParseArrayLoop_step {Num : Type} (strtod : List Char → Option Num) (hf : Nat)
    (s : List Char) (start fuel i j : Nat) (a : List (Value Num)) (v : Value Num)
    (wa : List Char) (c : Char) (rest : List Char)
    (hOK : ParseHelper strtod hf s i .Uninitialized = .ret .kOK j v)
    (hj : s.drop j = wa ++ c :: rest) (hwa : allSpace wa = true) (hc : isspace c = false)
    (hcp : v.copyConstructs = true) :
    ParseArrayLoop (ParseHelper strtod hf) s start (fuel + 1) i a =
      ParseArrayLoop (ParseHelper strtod hf) s start fuel
        (j + wa.length + (if c = ',' then 1 else 0)) (a ++ [v]) := by
  have hci := drop_cons_info (drop_append_info wa _ hj)
  have hjlt : j < s.length := by have := hci.1; omega
  obtain ⟨hk, hkb, _, _, hOK2⟩ := ParseHelper_ok_facts strtod hOK hjlt
  have hi : i < s.length := Nat.lt_of_le_of_lt (SkipSpace_ge_self s i) hk
  have hsj : SkipSpace s j = j + wa.length := SkipSpace_ws_then hj (allSpace_iff.mp hwa) hc
  rw [ParseArrayLoop_succ, if_pos hi, if_neg (Nat.not_le.mpr hk), if_neg hkb, hOK2]
  simp only [hcp, hsj, hci.2.1]
  rw [if_neg (by decide), if_neg (Nat.not_le.mpr hci.1)]
  by_cases hcc : c = ','
  · simp [hcc]
  · simp [hcc]

/-- At the closing bracket the loop of `ParseArray` ends with `kOK`. -/
theorem ParseArrayLoop_close {Num : Type} (helper : List Char → Nat → Value Num → Outcome Num)
    (s : List Char) (start fuel i : Nat) (a : List (Value Num)) (w post : List Char)
    (hs : s.drop i = w ++ ']' :: post) (hw : allSpace w = true) :
    ParseArrayLoop helper s start (fuel + 1) i a =
      .ret .kOK (i + w.length + 1) (.Array a) := by
  have hci := drop_cons_info (drop_append_info w _ hs)
  have hk : SkipSpace s i = i + w.length := SkipSpace_ws_then hs (allSpace_iff.mp hw) (by decide)
  have hi : i < s.length := by have := hci.1; omega
  rw [ParseArrayLoop_succ, if_pos hi, hk, if_neg (Nat.not_le.mpr hci.1), if_pos hci.2.1]

theorem ParseHelper_array {Num : Type} (strtod : List Char → Option Num) (fuel : Nat)
    {s : List Char} {i : Nat} {w r : List Char} (value : Value Num)
    (hs : s.drop i = w ++ '[' :: r) (hw : allSpace w = true) :
    ParseHelper strtod (fuel + 1) s i value =
      ParseArrayLoop (ParseHelper strtod fuel) s (i + w.length + 1) (s.length + 1)
        (i + w.length + 1) [] := by
  have hk := SkipSpace_ws_then hs (allSpace_iff.mp hw) (by decide)
  have hi := drop_cons_info (drop_append_info w _ hs)
  rw [ParseHelper_succ, hk, hi.2.1]
  simp [hi.1, isdigit, ParseArray, hi.2.1]

/-! ## Arrays of elements -/

theorem Delimited_ws_append {w p : List Char} (hw : allSpace w = true)
    (hp : Delimited p = true) : Delimited (w ++ p) = true := by
  cases w with
  | nil => simpa using hp
  | cons c w =>
    have := allSpace_iff.mp hw c (List.mem_cons_self _ _)
    simp [Delimited, this]

theorem length_le_elemsText {Num : Type} :
    ∀ (es : List (Elem Num)), es.length ≤ (elemsText es).length + 1
  | [] => by simp
  | [e] => by simp
  | e :: e2 :: rest => by
    have := length_le_elemsText (e2 :: rest)
    simp only [elemsText, List.length_cons, List.length_append] at this ⊢
    omega

theorem text_length_le_elemsText {Num : Type} :
    ∀ (es : List (Elem Num)) (e : Elem Num), e ∈ es → e.text.length ≤ (elemsText es).length
  | [], _, h => by cases h
  | [e1], e, h => by
    simp only [List.mem_singleton] at h
    subst h
    simp only [elemsText, List.length_append]
    omega
  | e1 :: e2 :: rest, e, h => by
    simp only [elemsText, List.length_cons, List.length_append]
    rcases List.mem_cons.mp h with h | h
    · subst h; omega
    · have := text_length_le_elemsText (e2 :: rest) e h
      omega

/-- One turn of the loop of `ParseArray` on an element as written. -/
theorem ParseArrayLoop_elem {Num : Type} (strtod : List Char → Option Num) (hf : Nat)
    (s : List Char) (start fuel i : Nat) (a : List (Value Num)) (e : Elem Num)
    (c : Char) (rest : List Char)
    (hs : s.drop i = e.before ++ e.text ++ e.after ++ c :: rest)
    (hp : e.Parses strtod) (hlen : e.text.length < hf)
    (hc : isspace c = false) (hd : Delimited (c :: rest) = true)
    (hcp : e.value.copyConstructs = true) :
    ParseArrayLoop (ParseHelper strtod hf) s start (fuel + 1) i a =
      ParseArrayLoop (ParseHelper strtod hf) s start fuel
        (i + (e.before ++ e.text ++ e.after).length + (if c = ',' then 1 else 0))
        (a ++ [e.value]) := by
  obtain ⟨hb, hpa, ha⟩ := hp
  have hs1 : s.drop i = e.before ++ (e.text ++ (e.after ++ c :: rest)) := by
    simpa [List.append_assoc] using hs
  have hs2 := drop_append_info _ _ hs1
  have hs3 := drop_append_info _ _ hs2
  have hOK : ParseHelper strtod hf s i .Uninitialized =
      .ret .kOK (i + e.before.length + e.text.length) e.value := by
    rw [ParseHelper_congr_SkipSpace strtod hf s i (i + e.before.length) _
      (SkipSpace_skip e.before hs1 (allSpace_iff.mp hb))]
    exact hpa hf s _ _ hlen hs2 (Delimited_ws_append ha hd)
  rw [ParseArrayLoop_step strtod hf s start fuel i _ a e.value e.after c rest hOK hs3 ha hc
    hcp]
  congr 1
  simp only [List.length_append]
  omega

/-- The loop of `ParseArray` on a run of elements as written, up to the
character `c` behind the last one. -/
theorem ParseArrayLoop_elems {Num : Type} (strtod : List Char → Option Num) (hf : Nat)
    (s : List Char) (start : Nat) (c : Char) (rest : List Char)
    (hc : isspace c = false) (hd : Delimited (c :: rest) = true) :
    ∀ (es : List (Elem Num)), es ≠ [] →
      (∀ e ∈ es, e.Parses strtod ∧ e.text.length < hf) →
      (∀ e ∈ es, e.value.copyConstructs = true) →
      ∀ (fuel i : Nat) (a : List (Value Num)), s.drop i = elemsText es ++ c :: rest →
        ParseArrayLoop (ParseHelper strtod hf) s start (fuel + es.length) i a =
          ParseArrayLoop (ParseHelper strtod hf) s start fuel
            (i + (elemsText es).length + (if c = ',' then 1 else 0))
            (a ++ es.map Elem.value)
  | [], h, _, _, _, _, _, _ => absurd rfl h
  | [e], _, hp, hcp, fuel, i, a, hs => by
    have := ParseArrayLoop_elem strtod hf s start fuel i a e c rest
      (by simpa [elemsText] using hs) (hp e (List.mem_cons_self _ _)).1
      (hp e (List.mem_cons_self _ _)).2 hc hd (hcp e (List.mem_cons_self _ _))
    simpa [elemsText] using this
  | e :: e2 :: more, _, hp, hcp, fuel, i, a, hs => by
    have hs1 : s.drop i = e.before ++ e.text ++ e.after ++ ',' :: (elemsText (e2 :: more) ++ c :: rest) := by
      simpa [elemsText, List.append_assoc] using hs
    have h1 := ParseArrayLoop_elem strtod hf s start (fuel + (e2 :: more).length) i a e ','
      (elemsText (e2 :: more) ++ c :: rest) hs1 (hp e (List.mem_cons_self _ _)).1
      (hp e (List.mem_cons_self _ _)).2 (by decide) (by simp [Delimited])
      (hcp e (List.mem_cons_self _ _))
    have hs2 : s.drop (i + (e.before ++ e.text ++ e.after).length + 1) =
        elemsText (e2 :: more) ++ c :: rest := by
      have := drop_append_info (e.before ++ e.text ++ e.after ++ [',']) _
        (by simpa [List.append_assoc] using hs1 :
          s.drop i = (e.before ++ e.text ++ e.after ++ [',']) ++
            (elemsText (e2 :: more) ++ c :: rest))
      simpa [Nat.add_assoc] using this
    have h2 := ParseArrayLoop_elems strtod hf s start c rest hc hd (e2 :: more)
      (List.cons_ne_nil _ _) (fun x hx => hp x (List.mem_cons_of_mem _ hx))
      (fun x hx => hcp x (List.mem_cons_of_mem _ hx)) fuel
      (i + (e.before ++ e.text ++ e.after).length + 1) (a ++ [e.value]) hs2
    have hfuel : fuel + (e :: e2 :: more).length = fuel + (e2 :: more).length + 1 := by
      simp only [List.length_cons]
      omega
    rw [hfuel, h1, if_pos rfl, h2]
    congr 1
    · simp only [elemsText, List.length_append, List.length_cons]
      omega
    · simp

theorem drop_after_bracket {s : List Char} {i : Nat} (w : List Char) (b : Char)
    (mid tail : List Char) (hs : s.drop i = w ++ b :: (mid ++ tail)) :
    s.drop (i + w.length + 1 + mid.length) = tail := by
  have h := drop_append_info (w ++ b :: mid) tail
    (by rw [hs]; simp [List.append_assoc] : s.drop i = (w ++ b :: mid) ++ tail)
  rw [← h]
  congr 1
  simp only [List.length_append, List.length_cons]
  omega

theorem length_drop_le (s : List Char) (i : Nat) : (s.drop i).length ≤ s.length := by
  rw [List.length_drop]
  omega

/-- `ParseHelper` on an opening bracket and a run of elements as written comes
to the loop of `ParseArray` behind the last element, all elements pushed. -/
theorem ParseHelper_array_elems {Num : Type} (strtod : List Char → Option Num) (fuel : Nat)
    (s : List Char) (i : Nat) (w : List Char) (es : List (Elem Num)) (c : Char)
    (rest : List Char) (value : Value Num)
    (hs : s.drop i = w ++ '[' :: (elemsText es ++ c :: rest))
    (hfuel : (s.drop i).length ≤ fuel) (hw : allSpace w = true)
    (hes : es ≠ []) (hp : ∀ e ∈ es, e.Parses strtod)
    (hc : isspace c = false) (hd : Delimited (c :: rest) = true)
    (hcp : ∀ e ∈ es, e.value.copyConstructs = true) :
    ∃ lf, ParseHelper strtod (fuel + 1) s i value =
      ParseArrayLoop (ParseHelper strtod fuel) s (i + w.length + 1) (lf + 1)
        (i + w.length + 1 + (elemsText es).length + (if c = ',' then 1 else 0))
        (es.map Elem.value) := by
  have hlen : (s.drop i).length = w.length + 1 + (elemsText es).length + 1 + rest.length := by
    rw [hs]; simp only [List.length_append, List.length_cons]; omega
  have hsl := length_drop_le s i
  have hn := length_le_elemsText es
  have hd1 : s.drop (i + w.length + 1) = elemsText es ++ c :: rest := by
    have := drop_after_bracket w '[' [] (elemsText es ++ c :: rest) (by simpa using hs)
    simpa using this
  refine ⟨s.length - es.length, ?_⟩
  rw [ParseHelper_array strtod fuel value hs hw]
  have hfuel2 : s.length + 1 = (s.length - es.length + 1) + es.length := by omega
  rw [hfuel2]
  have := ParseArrayLoop_elems strtod fuel s (i + w.length + 1) c rest hc hd es hes
    (fun e he => ⟨hp e he, by have := text_length_le_elemsText es e he; omega⟩) hcp
    (s.length - es.length + 1) (i + w.length + 1) [] hd1
  rw [this]
  simp

/-! ## `Parse` on arrays -/

/-- An array of elements as written, closed by `]`. -/
theorem Parse_array {Num : Type} (strtod : List Char → Option Num) (s w : List Char)
    (es : List (Elem Num)) (post : List Char) (value : Value Num)
    (hs : s = w ++ '[' :: (elemsText es ++ ']' :: post)) (hw : allSpace w = true)
    (hes : es ≠ []) (hp : ∀ e ∈ es, e.Parses strtod)
    (hcp : ∀ e ∈ es, e.value.copyConstructs = true) :
    Parse strtod s value =
      .ret .kOK (w.length + 1 + (elemsText es).length + 1) (.Array (es.map Elem.value)) := by
  have hs0 : s.drop 0 = w ++ '[' :: (elemsText es ++ ']' :: post) := by rw [hs]; rfl
  obtain ⟨lf, h⟩ := ParseHelper_array_elems strtod s.length s 0 w es ']' post value hs0
    (length_drop_le s 0) hw hes hp (by decide) (by simp [Delimited]) hcp
  have hd := drop_after_bracket w '[' (elemsText es) _ hs0
  rw [Parse, h, if_neg (by decide), Nat.add_zero,
    ParseArrayLoop_close _ s _ lf _ _ [] post (by simpa using hd) (by decide)]
  simp

/-- An array of elements as written, with a comma behind the last element. -/
theorem Parse_array_trailing_comma {Num : Type} (strtod : List Char → Option Num)
    (s w : List Char) (es : List (Elem Num)) (w2 post : List Char) (value : Value Num)
    (hs : s = w ++ '[' :: (elemsText es ++ ',' :: (w2 ++ ']' :: post)))
    (hw : allSpace w = true) (hw2 : allSpace w2 = true)
    (hes : es ≠ []) (hp : ∀ e ∈ es, e.Parses strtod)
    (hcp : ∀ e ∈ es, e.value.copyConstructs = true) :
    Parse strtod s value =
      .ret .kOK (w.length + 1 + (elemsText es).length + 1 + w2.length + 1)
        (.Array (es.map Elem.value)) := by
  have hs0 : s.drop 0 = w ++ '[' :: (elemsText es ++ ',' :: (w2 ++ ']' :: post)) := by
    rw [hs]; rfl
  obtain ⟨lf, h⟩ := ParseHelper_array_elems strtod s.length s 0 w es ',' _ value hs0
    (length_drop_le s 0) hw hes hp (by decide) (by simp [Delimited]) hcp
  have hd := drop_after_bracket w '[' (elemsText es) _ hs0
  have hd1 := (drop_cons_info hd).2.2
  rw [Parse, h, if_pos rfl, ParseArrayLoop_close _ s _ lf _ _ w2 post hd1 hw2]
  simp

/-! ## Texts spaced the way `ToString` spaces them -/

theorem elemsText_spacedElems_false {Num : Type} :
    ∀ (l : List (List Char × Value Num)), l ≠ [] →
      elemsText (spacedElems false l) = ' ' :: joinSep ", ".toList (l.map Prod.fst)
  | [], h => absurd rfl h
  | [(t, v)], _ => by simp [spacedElems, elemsText, joinSep]
  | (t, v) :: p :: rest, _ => by
    have ih := elemsText_spacedElems_false (p :: rest) (List.cons_ne_nil _ _)
    obtain ⟨t2, v2⟩ := p
    simp only [spacedElems] at ih ⊢
    simp only [elemsText, ih]
    simp [joinSep]

theorem elemsText_spacedElems {Num : Type} :
    ∀ (l : List (List Char × Value Num)),
      elemsText (spacedElems true l) = joinSep ", ".toList (l.map Prod.fst)
  | [] => rfl
  | [(t, v)] => by simp [spacedElems, elemsText, joinSep]
  | (t, v) :: p :: rest => by
    have ih := elemsText_spacedElems_false (p :: rest) (List.cons_ne_nil _ _)
    obtain ⟨t2, v2⟩ := p
    simp only [spacedElems] at ih ⊢
    simp only [elemsText, ih]
    simp [joinSep]

theorem spacedElems_values {Num : Type} :
    ∀ (first : Bool) (l : List (List Char × Value Num)),
      (spacedElems first l).map Elem.value = l.map Prod.snd
  | _, [] => rfl
  | first, (t, v) :: rest => by
    simp [spacedElems, spacedElems_values false rest]

theorem spacedElems_parses {Num : Type} (strtod : List Char → Option Num) :
    ∀ (first : Bool) (l : List (List Char × Value Num)),
      (∀ p ∈ l, ParsesAs strtod p.1 p.2) → ∀ e ∈ spacedElems first l, e.Parses strtod
  | _, [], _, e, he => by cases he
  | first, (t, v) :: rest, h, e, he => by
    simp only [spacedElems, List.mem_cons] at he
    rcases he with he | he
    · subst he
      refine ⟨?_, h (t, v) (List.mem_cons_self _ _), rfl⟩
      cases first <;> rfl
    · exact spacedElems_parses strtod false rest
        (fun p hp => h p (List.mem_cons_of_mem _ hp)) e he

theorem spacedElems_ne_nil {Num : Type} (first : Bool) (l : List (List Char × Value Num))
    (h : l ≠ []) : spacedElems first l ≠ [] := by
  cases l with
  | nil => exact absurd rfl h
  | cons p rest => obtain ⟨t, v⟩ := p; simp [spacedElems]

theorem ToStringArray_false {Num : Type} (fmt : Num → List Char) :
    ∀ (vs : List (Value Num)), vs ≠ [] →
      ToStringArray fmt vs false =
        ", ".toList ++ joinSep ", ".toList (vs.map (Value.ToString fmt))
  | [], h => absurd rfl h
  | [v], _ => by simp [ToStringArray, joinSep]
  | v :: v2 :: rest, _ => by
    have ih := ToStringArray_false fmt (v2 :: rest) (List.cons_ne_nil _ _)
    rw [ToStringArray, ih]
    simp [joinSep]

theorem ToStringArray_true {Num : Type} (fmt : Num → List Char) :
    ∀ (vs : List (Value Num)),
      ToStringArray fmt vs true = joinSep ", ".toList (vs.map (Value.ToString fmt))
  | [] => by simp [ToStringArray, joinSep]
  | [v] => by simp [ToStringArray, joinSep]
  | v :: v2 :: rest => by
    have ih := ToStringArray_false fmt (v2 :: rest) (List.cons_ne_nil _ _)
    rw [ToStringArray, ih]
    simp [joinSep]

theorem Keyword.toString_value {Num : Type} (fmt : Num → List Char) (k : Keyword) :
    Value.ToString fmt (k.value : Value Num) = k.text := by
  cases k <;> rfl

/-! ## Strings that are not closed -/

theorem hasUnescapedQuote_cons {c : Char} {r : List Char}
    (h : hasUnescapedQuote (c :: r) = false) :
    c ≠ '"' ∧ (c ≠ '\\' → hasUnescapedQuote r = false) ∧
      (c = '\\' → hasUnescapedQuote (r.drop 1) = false) := by
  unfold hasUnescapedQuote at h
  by_cases hq : c = '"'
  · simp [hq] at h
  · refine ⟨hq, ?_, ?_⟩
    · intro hb
      simpa [hq, hb] using h
    · intro hb
      cases r with
      | nil => rfl
      | cons e r1 => simpa [hq, hb] using h

theorem hasUnescapedQuote_drop_succ {s : List Char} {p : Nat}
    (h : hasUnescapedQuote (s.drop p) = false)
    (hc : p < s.length → charAt s p ≠ '\\') : hasUnescapedQuote (s.drop (p + 1)) = false := by
  cases hd : s.drop p with
  | nil =>
    have : s.drop (p + 1) = [] := by
      have h1 : s.drop (p + 1) = (s.drop p).drop 1 := by rw [List.drop_drop, Nat.add_comm]
      rw [h1, hd]; rfl
    rw [this]; rfl
  | cons c r =>
    have hi := drop_cons_info hd
    rw [hd] at h
    rw [hi.2.2]
    exact (hasUnescapedQuote_cons h).2.1 (by rw [← hi.2.1]; exact hc hi.1)

theorem hex_digit_toupper_ne_backslash {c : Char} (h : hex_digit (toupper c) = true) :
    c ≠ '\\' := by
  intro hc
  subst hc
  revert h
  decide

theorem hexLoop_true {s : List Char} {i : Nat} (h : hexLoop s i 4 1 = true) (j : Nat)
    (hj1 : 1 ≤ j) (hj4 : j ≤ 4) (hlt : i + j < s.length) :
    hex_digit (toupper (charAt s (i + j))) = true := by
  have l1 : i + 1 < s.length := by omega
  simp only [hexLoop, Nat.reduceAdd, Nat.reduceLeDiff, true_and, l1, if_true] at h
  by_cases x1 : hex_digit (toupper (charAt s (i + 1))) = true
  · simp only [x1, if_true] at h
    by_cases hj : j = 1
    · subst hj; exact x1
    have l2 : i + 2 < s.length := by omega
    simp only [l2, if_true] at h
    by_cases x2 : hex_digit (toupper (charAt s (i + 2))) = true
    · simp only [x2, if_true] at h
      by_cases hj' : j = 2
      · subst hj'; exact x2
      have l3 : i + 3 < s.length := by omega
      simp only [l3, if_true] at h
      by_cases x3 : hex_digit (toupper (charAt s (i + 3))) = true
      · simp only [x3, if_true] at h
        by_cases hj'' : j = 3
        · subst hj''; exact x3
        have hj4' : j = 4 := by omega
        subst hj4'
        simp only [hlt, if_true] at h
        by_cases x4 : hex_digit (toupper (charAt s (i + 4))) = true
        · exact x4
        · simp [x4] at h
      · simp [x3] at h
    · simp [x2] at h
  · simp [x1] at h

theorem ParseStringLoop_unterminated {Num : Type} (s : List Char) (start j : Nat) :
    ∀ (fuel i : Nat), hasUnescapedQuote (s.drop i) = false →
      (ParseStringLoop s start j fuel i : Outcome Num) =
        .ret .kInvalidToken start (.String []) := by
  intro fuel
  induction fuel with
  | zero => intro i _; rfl
  | succ f ih =>
    intro i h
    rw [ParseStringLoop]
    by_cases hi : i < s.length
    · rw [if_pos hi]
      obtain ⟨c, r, hd⟩ : ∃ c r, s.drop i = c :: r := by
        cases hd : s.drop i with
        | nil =>
          have := List.length_drop i s
          rw [hd] at this
          simp at this
          omega
        | cons c r => exact ⟨c, r, rfl⟩
      have hinfo := drop_cons_info hd
      rw [hd] at h
      obtain ⟨hq, hplain, hesc⟩ := hasUnescapedQuote_cons h
      rw [hinfo.2.1, if_neg hq]
      by_cases hb : c = '\\'
      · rw [if_pos hb]
        have h2 : hasUnescapedQuote (s.drop (i + 1 + 1)) = false := by
          have h1 : s.drop (i + 1 + 1) = (s.drop (i + 1)).drop 1 := by
            rw [List.drop_drop, Nat.add_comm]
          rw [h1, hinfo.2.2]
          exact hesc hb
        by_cases hi1 : i + 1 < s.length
        · rw [if_pos hi1]
          by_cases he : simpleEscape (charAt s (i + 1)) = true
          · rw [if_pos he]; exact ih _ h2
          · rw [if_neg he]
            by_cases hu : charAt s (i + 1) = 'u'
            · rw [if_pos hu]
              by_cases hx : hexLoop s (i + 1) 4 1 = true
              · rw [if_pos hx]
                apply ih
                have s1 := hasUnescapedQuote_drop_succ h2 (fun hl =>
                  hex_digit_toupper_ne_backslash
                    (hexLoop_true hx 1 (by omega) (by omega) (by omega)))
                have s2 := hasUnescapedQuote_drop_succ s1 (fun hl =>
                  hex_digit_toupper_ne_backslash
                    (hexLoop_true hx 2 (by omega) (by omega) (by omega)))
                have s3 := hasUnescapedQuote_drop_succ s2 (fun hl =>
                  hex_digit_toupper_ne_backslash
                    (hexLoop_true hx 3 (by omega) (by omega) (by omega)))
                have s4 := hasUnescapedQuote_drop_succ s3 (fun hl =>
                  hex_digit_toupper_ne_backslash
                    (hexLoop_true hx 4 (by omega) (by omega) (by omega)))
                exact s4
              · rw [if_neg hx]
            · rw [if_neg hu]; exact ih _ h2
        · rw [if_neg hi1]
          apply ih
          rw [List.drop_eq_nil_of_le (by omega)]
          rfl
      · rw [if_neg hb]
        apply ih
        rw [hinfo.2.2]
        exact hplain hb
    · rw [if_neg hi]

/-- `ParseString` on an opening quote behind which no quote closes the string. -/
theorem ParseString_unterminated {Num : Type} (value : Value Num) (s : List Char) (start : Nat)
    (body : List Char) (hs : s.drop start = '"' :: body)
    (hb : hasUnescapedQuote body = false) :
    ParseString s start value = .ret .kInvalidToken start (.String []) := by
  have hi := drop_cons_info hs
  rw [ParseString, hi.2.1]
  simp only [ne_eq, not_true_eq_false, if_false]
  exact ParseStringLoop_unterminated s start _ _ _ (by rw [hi.2.2]; exact hb)

/-! ## The loop of `ParseObject` -/

theorem ParseObjectLoop_succ {Num : Type} (helper : List Char → Nat → Value Num → Outcome Num)
    (s : List Char) (start fuel i : Nat) (o : List (List Char × Value Num)) :
    ParseObjectLoop helper s start (fuel + 1) i o =
      if i < s.length then
        if SkipSpace s i ≥ s.length then .ret .kInvalidToken start (.Object o)
        else if charAt s (SkipSpace s i) = '}' then .ret .kOK (SkipSpace s i + 1) (.Object o)
        else
          match ParseString s (SkipSpace s i) (.Uninitialized : Value Num) with
          | .ret .kOK i1 string =>
            if SkipSpace s i1 ≥ s.length ∨ charAt s (SkipSpace s i1) ≠ ':' then
              .ret .kInvalidToken start (.Object o)
            else if SkipSpace s (SkipSpace s i1 + 1) ≥ s.length then
              .ret .kInvalidToken start (.Object o)
            else
              match helper s (SkipSpace s (SkipSpace s i1 + 1)) .Uninitialized with
              | .ret .kOK i2 v =>
                match string with
                | .String key =>
                  if v.assigns = false then .undefined
                  else if SkipSpace s i2 ≥ s.length then
                    .ret .kInvalidToken start (.Object (mapSet o key v))
                  else if charAt s (SkipSpace s i2) = ',' then
                    ParseObjectLoop helper s start fuel (SkipSpace s i2 + 1) (mapSet o key v)
                  else ParseObjectLoop helper s start fuel (SkipSpace s i2) (mapSet o key v)
                | _ => .assertFailed
              | .ret err _ _ => .ret err start (.Object o)
              | .thrown e => .thrown e
              | .assertFailed => .assertFailed
              | .outOfFuel => .outOfFuel
              | .undefined => .undefined
          | .ret err _ _ => .ret err start (.Object o)
          | .thrown e => .thrown e
          | .assertFailed => .assertFailed
          | .outOfFuel => .outOfFuel
          | .undefined => .undefined
      else .ret .kOK i (.Object o) := rfl

/-! ## Characters by their code -/

theorem char_eq_of_toNat {a b : Char} (h₁ : ¬ a.toNat < b.toNat) (h₂ : ¬ b.toNat < a.toNat) :
    a = b := by
  have h : a.toNat = b.toNat := by omega
  apply Char.ext
  apply UInt32.ext
  exact h

/-! ## What `ParseString` scans over -/

/-- A keyword at the cursor is parsed by `ParseOthers`, whatever follows it and
whatever the target holds. -/
theorem ParseHelper_keyword {Num : Type} (strtod : List Char → Option Num) (k : Keyword)
    (fuel : Nat) (s : List Char) (i : Nat) (post : List Char) (value : Value Num)
    (hs : s.drop i = k.text ++ post) :
    ParseHelper strtod (fuel + 1) s i value = .ret .kOK (i + k.text.length) k.value := by
  obtain ⟨c, r, hk, hc⟩ : ∃ c r, k.text = c :: r ∧ isspace c = false := by
    cases k
    · exact ⟨'t', "rue".toList, rfl, rfl⟩
    · exact ⟨'f', "alse".toList, rfl, rfl⟩
    · exact ⟨'n', "ull".toList, rfl, rfl⟩
  have hs1 : s.drop i = c :: (r ++ post) := by rw [hs, hk]; rfl
  have hi := drop_cons_info hs1
  have hlen := le_length_of_drop_cons hs1
  have h0 := SkipSpace_of_not_space hs1 hc
  have hle : ¬ s.length ≤ i := by omega
  have hsub : ∀ n, substr s i n = (k.text ++ post).take n := by
    intro n; rw [substr, hs]
  rw [ParseHelper_succ, h0, hi.2.1]
  cases k
  · simp only [Keyword.text] at hk
    injection hk with hc' hr
    subst hc' hr
    simp at hlen
    have h3 : i + 3 < s.length := by omega
    simp [ParseOthers, token_info, ParseOthersLoop, hsub, isdigit, Keyword.text, Keyword.value,
      h3, hle]
  · simp only [Keyword.text] at hk
    injection hk with hc' hr
    subst hc' hr
    simp at hlen
    have h3 : i + 4 < s.length := by omega
    simp [ParseOthers, token_info, ParseOthersLoop, hsub, isdigit, Keyword.text, Keyword.value,
      h3, hle]
  · simp only [Keyword.text] at hk
    injection hk with hc' hr
    subst hc' hr
    simp at hlen
    have h3 : i + 3 < s.length := by omega
    simp [ParseOthers, token_info, ParseOthersLoop, hsub, isdigit, Keyword.text, Keyword.value,
      h3, hle]

theorem scannedBody_quote (r : List Char) : scannedBody ('"' :: r) = false := by
  unfold scannedBody; simp

theorem scannedBody_plain {c : Char} (r : List Char) (hq : c ≠ '"') (hb : c ≠ '\\') :
    scannedBody (c :: r) = scannedBody r := by
  conv => lhs; unfold scannedBody
  simp [hq, hb]

theorem scannedBody_backslash_end : scannedBody ['\\'] = false := by
  unfold scannedBody; simp

theorem scannedBody_escape {e : Char} (r : List Char) (hu : e ≠ 'u') :
    scannedBody ('\\' :: e :: r) = scannedBody r := by
  conv => lhs; unfold scannedBody
  simp [hu]

theorem scannedBody_unicode (r : List Char) :
    scannedBody ('\\' :: 'u' :: r) = (startsFourHex r && scannedBody (r.drop 4)) := by
  conv => lhs; unfold scannedBody
  rcases r with _ | ⟨h1, _ | ⟨h2, _ | ⟨h3, _ | ⟨h4, r2⟩⟩⟩⟩ <;> simp [startsFourHex]

theorem startsFourHex_iff {r : List Char} (h : startsFourHex r = true) :
    ∃ h1 h2 h3 h4 r2, r = h1 :: h2 :: h3 :: h4 :: r2 ∧ isHexDigit h1 = true ∧
      isHexDigit h2 = true ∧ isHexDigit h3 = true ∧ isHexDigit h4 = true := by
  rcases r with _ | ⟨h1, _ | ⟨h2, _ | ⟨h3, _ | ⟨h4, r2⟩⟩⟩⟩
  · simp [startsFourHex] at h
  · simp [startsFourHex] at h
  · simp [startsFourHex] at h
  · simp [startsFourHex] at h
  · simp only [startsFourHex, Bool.and_eq_true] at h
    exact ⟨h1, h2, h3, h4, r2, rfl, h.1.1.1, h.1.1.2, h.1.2, h.2⟩

theorem ParseStringLoop_skip (Num : Type) (n : Nat) :
    ∀ (b : List Char), b.length = n → ∀ (s : List Char) (start j fuel i : Nat)
      (tail : List Char) (m : Nat),
      scannedBody b = true → s.drop i = b ++ tail → b.length + m ≤ fuel →
      ∃ fuel', m ≤ fuel' ∧ (ParseStringLoop s start j fuel i : Outcome Num) =
        ParseStringLoop s start j fuel' (i + b.length) := by
  induction n using Nat.strong_induction_on with
  | _ n ih =>
    intro b hn s start j fuel i tail m hsc hs hfuel
    cases b with
    | nil => exact ⟨fuel, by simpa using hfuel, rfl⟩
    | cons c r =>
      obtain ⟨f, rfl⟩ : ∃ f, fuel = f + 1 := ⟨fuel - 1, by simp at hfuel; omega⟩
      have hi := drop_cons_info (by simpa using hs : s.drop i = c :: (r ++ tail))
      simp only [List.length_cons] at hn hfuel
      by_cases hq : c = '"'
      · subst hq; rw [scannedBody_quote] at hsc; cases hsc
      by_cases hb : c = '\\'
      · subst hb
        cases r with
        | nil => rw [scannedBody_backslash_end] at hsc; cases hsc
        | cons e r1 =>
          have hi1 := drop_cons_info hi.2.2
          simp only [List.length_cons] at hn hfuel
          by_cases hu : e = 'u'
          · subst hu
            rw [scannedBody_unicode, Bool.and_eq_true] at hsc
            obtain ⟨h1, h2, h3, h4, r2, hr, x1, x2, x3, x4⟩ := startsFourHex_iff hsc.1
            subst hr
            have hsc2 : scannedBody r2 = true := by simpa using hsc.2
            have hhex := hexLoop_ok (i := i + 1) (by simpa using hi1.2.2) x1 x2 x3 x4
            have hd : s.drop (i + 1 + 4 + 1) = r2 ++ tail := by
              have := drop_append_info (s := s) (i := i + 1 + 1) [h1, h2, h3, h4]
                (r2 ++ tail) (by simpa using hi1.2.2)
              simpa [Nat.add_assoc] using this
            simp only [List.length_cons] at hn hfuel
            obtain ⟨fuel', hm, heq⟩ := ih r2.length (by omega) r2 rfl s start j f
              (i + 1 + 4 + 1) tail m hsc2 hd (by omega)
            refine ⟨fuel', hm, ?_⟩
            have hne : simpleEscape 'u' = false := by decide
            have hstep : (ParseStringLoop s start j (f + 1) i : Outcome Num) =
                ParseStringLoop s start j f (i + 1 + 4 + 1) := by
              simp only [ParseStringLoop, hi.1, hi.2.1, hi1.1, hi1.2.1, hne, hhex, if_true]
              simp
            rw [hstep, heq]
            congr 1
            simp only [List.length_cons]
            omega
          · rw [scannedBody_escape r1 hu] at hsc
            obtain ⟨fuel', hm, heq⟩ := ih r1.length (by omega) r1 rfl s start j f
              (i + 1 + 1) tail m hsc (by simpa using hi1.2.2) (by omega)
            refine ⟨fuel', hm, ?_⟩
            have hstep : (ParseStringLoop s start j (f + 1) i : Outcome Num) =
                ParseStringLoop s start j f (i + 1 + 1) := by
              simp only [ParseStringLoop, hi.1, hi.2.1, hi1.1, hi1.2.1, hu, if_true]
              simp
            rw [hstep, heq]
            congr 1
            simp only [List.length_cons]
            omega
      · rw [scannedBody_plain r hq hb] at hsc
        obtain ⟨fuel', hm, heq⟩ := ih r.length (by omega) r rfl s start j f (i + 1) tail m hsc
          (by simpa using hi.2.2) (by omega)
        refine ⟨fuel', hm, ?_⟩
        have hstep : (ParseStringLoop s start j (f + 1) i : Outcome Num) =
            ParseStringLoop s start j f (i + 1) := by
          simp only [ParseStringLoop, hi.1, hi.2.1, hq, hb, if_true, if_false]
        rw [hstep, heq]
        congr 1
        simp only [List.length_cons]
        omega

theorem char_of_range (c : Char) (lo hi : Nat) (h : lo ≤ c.toNat ∧ c.toNat ≤ hi) :
    ∃ n, lo ≤ n ∧ n ≤ hi ∧ c = Char.ofNat n :=
  ⟨c.toNat, h.1, h.2, (Char.ofNat_toNat c).symm⟩

theorem char_le_iff (a b : Char) : a ≤ b ↔ a.toNat ≤ b.toNat := by
  rw [Char.le_def]
  exact Iff.rfl

theorem hex_digit_toupper_conv {c : Char} (h : hex_digit (toupper c) = true) :
    isHexDigit c = true := by
  by_cases hr : 'a' ≤ c ∧ c ≤ 'z'
  · have hr' : 97 ≤ c.toNat ∧ c.toNat ≤ 122 := by
      rw [char_le_iff, char_le_iff] at hr
      exact hr
    obtain ⟨n, h1, h2, rfl⟩ := char_of_range c 97 122 hr'
    interval_cases n <;> revert h <;> decide
  · have : toupper c = c := by simp [toupper, hr]
    rw [this] at h
    simp only [hex_digit, decide_eq_true_eq] at h
    have hall : ∀ d ∈ "0123456789ABCDEF".toList, isHexDigit d = true := by decide
    exact hall c h

/-- `ParseString` on a quoted string that it scans through: `kOK`, the body
stored as written. -/
theorem ParseString_scanned {Num : Type} (value : Value Num) (s : List Char) (start : Nat)
    (b post : List Char) (hs : s.drop start = '"' :: (b ++ '"' :: post))
    (hsc : scannedBody b = true) :
    ParseString s start value = .ret .kOK (start + b.length + 2) (.String b) := by
  have hi := drop_cons_info hs
  have hlen := le_length_of_drop_cons hs
  simp only [List.length_append, List.length_cons] at hlen
  obtain ⟨fuel', hm, heq⟩ := ParseStringLoop_skip Num b.length b rfl s start (start + 1)
    (s.length - (start + 1)) (start + 1) ('"' :: post) 1 hsc hi.2.2 (by omega)
  obtain ⟨f, rfl⟩ : ∃ f, fuel' = f + 1 := ⟨fuel' - 1, by omega⟩
  have hq := drop_cons_info (drop_append_info b _ hi.2.2)
  have hsub : substr s (start + 1) (start + 1 + b.length - (start + 1)) = b := by
    simp only [substr, hi.2.2]
    have : start + 1 + b.length - (start + 1) = b.length := by omega
    rw [this, List.take_left]
  simp only [ParseString, hi.2.1, ne_eq, not_true_eq_false, if_false, heq]
  simp only [ParseStringLoop, hq.1, hq.2.1, if_true, hsub]
  congr 1
  omega

/-- `ParseString` on a string in which a `\u` is not followed by four hex
digits. -/
theorem ParseString_bad_unicode {Num : Type} (value : Value Num) (s : List Char) (start : Nat)
    (pre rest : List Char) (hs : s.drop start = '"' :: (pre ++ '\\' :: 'u' :: rest))
    (hsc : scannedBody pre = true) (hbad : startsFourHex rest = false) :
    ParseString s start value = .ret .kInvalidToken start (.String []) := by
  have hi := drop_cons_info hs
  have hlen := le_length_of_drop_cons hs
  simp only [List.length_append, List.length_cons] at hlen
  obtain ⟨fuel', hm, heq⟩ := ParseStringLoop_skip Num pre.length pre rfl s start (start + 1)
    (s.length - (start + 1)) (start + 1) ('\\' :: 'u' :: rest) 1 hsc hi.2.2 (by omega)
  obtain ⟨f, rfl⟩ : ∃ f, fuel' = f + 1 := ⟨fuel' - 1, by omega⟩
  have hb := drop_cons_info (drop_append_info pre _ hi.2.2)
  have hu := drop_cons_info hb.2.2
  have hne : simpleEscape 'u' = false := by decide
  simp only [ParseString, hi.2.1, ne_eq, not_true_eq_false, if_false, heq]
  rw [ParseStringLoop, if_pos hb.1, hb.2.1, if_neg (by decide), if_pos rfl, if_pos hu.1,
    hu.2.1, hne, if_neg (by decide), if_pos rfl]
  by_cases hx : hexLoop s (start + 1 + pre.length + 1) 4 1 = true
  · rw [if_pos hx]
    apply ParseStringLoop_unterminated
    have hshort : rest.length < 4 := by
      by_contra hge
      rcases rest with _ | ⟨h1, _ | ⟨h2, _ | ⟨h3, _ | ⟨h4, r2⟩⟩⟩⟩
      · simp at hge
      · simp at hge
      · simp at hge
      · simp at hge
      · have a1 := drop_cons_info hu.2.2
        have a2 := drop_cons_info a1.2.2
        have a3 := drop_cons_info a2.2.2
        have a4 := drop_cons_info a3.2.2
        have x1 := hexLoop_true hx 1 (by omega) (by omega) a1.1
        have x2 := hexLoop_true hx 2 (by omega) (by omega) a2.1
        have x3 := hexLoop_true hx 3 (by omega) (by omega) a3.1
        have x4 := hexLoop_true hx 4 (by omega) (by omega) a4.1
        rw [a1.2.1] at x1
        rw [show start + 1 + pre.length + 1 + 2 = start + 1 + pre.length + 1 + 1 + 1 from rfl,
          a2.2.1] at x2
        rw [show start + 1 + pre.length + 1 + 3 = start + 1 + pre.length + 1 + 1 + 1 + 1
          from rfl, a3.2.1] at x3
        rw [show start + 1 + pre.length + 1 + 4 = start + 1 + pre.length + 1 + 1 + 1 + 1 + 1
          from rfl, a4.2.1] at x4
        simp [startsFourHex, hex_digit_toupper_conv x1, hex_digit_toupper_conv x2,
          hex_digit_toupper_conv x3, hex_digit_toupper_conv x4] at hbad
    rw [List.drop_eq_nil_of_le (by omega)]
    rfl
  · rw [if_neg hx]

/-- `scannedBody` of a run followed by a run. -/
theorem scannedBody_append (n : Nat) :
    ∀ (a : List Char), a.length = n → ∀ (b : List Char), scannedBody a = true →
      scannedBody b = true → scannedBody (a ++ b) = true := by
  induction n using Nat.strong_induction_on with
  | _ n ih =>
    intro a hn b ha hb
    cases a with
    | nil => simpa using hb
    | cons c r =>
      simp only [List.length_cons] at hn
      by_cases hq : c = '"'
      · subst hq; rw [scannedBody_quote] at ha; cases ha
      by_cases hbs : c = '\\'
      · subst hbs
        cases r with
        | nil => rw [scannedBody_backslash_end] at ha; cases ha
        | cons e r1 =>
          simp only [List.length_cons] at hn
          by_cases hu : e = 'u'
          · subst hu
            rw [scannedBody_unicode, Bool.and_eq_true] at ha
            obtain ⟨h1, h2, h3, h4, r2, hr, x1, x2, x3, x4⟩ := startsFourHex_iff ha.1
            subst hr
            simp only [List.length_cons] at hn
            have h2' : scannedBody r2 = true := by simpa using ha.2
            have := ih r2.length (by omega) r2 rfl b h2' hb
            show scannedBody ('\\' :: 'u' :: (h1 :: h2 :: h3 :: h4 :: r2 ++ b)) = true
            rw [scannedBody_unicode]
            simp [startsFourHex, x1, x2, x3, x4, this]
          · rw [scannedBody_escape r1 hu] at ha
            show scannedBody ('\\' :: e :: (r1 ++ b)) = true
            rw [scannedBody_escape _ hu]
            exact ih r1.length (by omega) r1 rfl b ha hb
      · rw [scannedBody_plain r hq hbs] at ha
        show scannedBody (c :: (r ++ b)) = true
        rw [scannedBody_plain _ hq hbs]
        exact ih r.length (by omega) r rfl b ha hb

/-! ## What a call that returns `kOK` has done -/

theorem drop_eq_charAt_cons {s : List Char} {i : Nat} (h : i < s.length) :
    s.drop i = charAt s i :: s.drop (i + 1) := by
  rw [List.drop_eq_getElem_cons h]
  congr 1
  simp [charAt, List.getD, List.getElem?_eq_getElem h]

theorem ParseStringLoop_of_ge {Num : Type} (s : List Char) (start j fuel i : Nat)
    (h : s.length ≤ i) :
    (ParseStringLoop s start j fuel i : Outcome Num) = .ret .kInvalidToken start (.String []) := by
  cases fuel with
  | zero => rfl
  | succ n => rw [ParseStringLoop, if_neg (Nat.not_lt.mpr h)]

/-- What the loop of `ParseString` has scanned over when it returns `kOK`. -/
theorem ParseStringLoop_complete {Num : Type} (s : List Char) (start j : Nat) :
    ∀ (fuel i c : Nat) (v : Value Num),
      ParseStringLoop s start j fuel i = .ret .kOK c v →
      ∃ b rest, s.drop i = b ++ '"' :: rest ∧ scannedBody b = true ∧
        c = i + b.length + 1 ∧ v = .String (substr s j (i + b.length - j)) := by
  intro fuel
  induction fuel using Nat.strong_induction_on with
  | _ fuel ih =>
    intro i c v h
    cases fuel with
    | zero => cases h
    | succ n =>
      rw [ParseStringLoop] at h
      by_cases hi : i < s.length
      · rw [if_pos hi] at h
        have hd := drop_eq_charAt_cons hi
        by_cases hq : charAt s i = '"'
        · rw [if_pos hq] at h
          injection h with _ h2 h3
          refine ⟨[], s.drop (i + 1), by rw [hd, hq]; rfl, rfl, by simpa using h2.symm, ?_⟩
          simpa using h3.symm
        · rw [if_neg hq] at h
          by_cases hb : charAt s i = '\\'
          · rw [if_pos hb] at h
            by_cases hi1 : i + 1 < s.length
            · rw [if_pos hi1] at h
              have hd1 := drop_eq_charAt_cons hi1
              by_cases hu : charAt s (i + 1) = 'u'
              · rw [if_neg (by rw [hu]; decide), if_pos hu] at h
                by_cases hx : hexLoop s (i + 1) 4 1 = true
                · rw [if_pos hx] at h
                  obtain ⟨b, rest, e1, e2, e3, e4⟩ := ih n (Nat.lt_succ_self _) _ c v h
                  have hlt := (drop_cons_info (drop_append_info _ _ e1)).1
                  have l2 : i + 1 + 1 < s.length := by omega
                  have l3 : i + 1 + 2 < s.length := by omega
                  have l4 : i + 1 + 3 < s.length := by omega
                  have l5 : i + 1 + 4 < s.length := by omega
                  have d2 := drop_eq_charAt_cons l2
                  have d3 := drop_eq_charAt_cons l3
                  have d4 := drop_eq_charAt_cons l4
                  have d5 := drop_eq_charAt_cons l5
                  have x1 := hex_digit_toupper_conv (hexLoop_true hx 1 (by omega) (by omega) l2)
                  have x2 := hex_digit_toupper_conv (hexLoop_true hx 2 (by omega) (by omega) l3)
                  have x3 := hex_digit_toupper_conv (hexLoop_true hx 3 (by omega) (by omega) l4)
                  have x4 := hex_digit_toupper_conv (hexLoop_true hx 4 (by omega) (by omega) l5)
                  refine ⟨'\\' :: 'u' :: charAt s (i + 1 + 1) :: charAt s (i + 1 + 2) ::
                    charAt s (i + 1 + 3) :: charAt s (i + 1 + 4) :: b, rest, ?_, ?_, ?_, ?_⟩
                  · rw [hd, hb, hd1, hu, d2, d3, d4, d5, e1]
                    rfl
                  · rw [scannedBody_unicode]
                    simp [startsFourHex, x1, x2, x3, x4, e2]
                  · simp only [List.length_cons]
                    omega
                  · rw [e4]
                    congr 2
                    simp only [List.length_cons]
                    omega
                · rw [if_neg hx] at h
                  cases h
              · have hstep : (ParseStringLoop s start j n (i + 1 + 1) : Outcome Num) =
                    .ret .kOK c v := by
                  by_cases hse : simpleEscape (charAt s (i + 1)) = true
                  · rw [if_pos hse] at h; exact h
                  · rw [if_neg hse, if_neg hu] at h; exact h
                obtain ⟨b, rest, e1, e2, e3, e4⟩ := ih n (Nat.lt_succ_self _) _ c v hstep
                refine ⟨'\\' :: charAt s (i + 1) :: b, rest, ?_, ?_, ?_, ?_⟩
                · rw [hd, hb, hd1, e1]
                  rfl
                · rw [scannedBody_escape _ hu]
                  exact e2
                · simp only [List.length_cons]
                  omega
                · rw [e4]
                  congr 2
                  simp only [List.length_cons]
                  omega
            · rw [if_neg hi1, ParseStringLoop_of_ge s start j n (i + 1) (by omega)] at h
              cases h
          · rw [if_neg hb] at h
            obtain ⟨b, rest, e1, e2, e3, e4⟩ := ih n (Nat.lt_succ_self _) _ c v h
            refine ⟨charAt s i :: b, rest, ?_, ?_, ?_, ?_⟩
            · rw [hd, e1]
              rfl
            · rw [scannedBody_plain _ hq hb]
              exact e2
            · simp only [List.length_cons]
              omega
            · rw [e4]
              congr 2
              simp only [List.length_cons]
              omega
      · rw [if_neg hi] at h
        cases h

/-- A call of `ParseString` that returns `kOK` stood at a quote, scanned over
a body up to the next quote of a loop head, and stored the body as written. -/
theorem ParseString_complete {Num : Type} (s : List Char) (start c : Nat)
    (value v : Value Num) (h : ParseString s start value = .ret .kOK c v) :
    ∃ b rest, s.drop start = '"' :: (b ++ '"' :: rest) ∧ scannedBody b = true ∧
      c = start + b.length + 2 ∧ v = .String b := by
  rw [ParseString] at h
  by_cases hq : charAt s start = '"'
  · rw [if_neg (not_not.mpr hq)] at h
    obtain ⟨b, rest, e1, e2, e3, e4⟩ := ParseStringLoop_complete s start _ _ _ c v h
    have hlt : start < s.length := by
      have := (drop_cons_info (drop_append_info _ _ e1)).1
      omega
    refine ⟨b, rest, ?_, e2, by omega, ?_⟩
    · rw [drop_eq_charAt_cons hlt, hq, e1]
    · rw [e4, substr, e1]
      simp
  · rw [if_pos hq] at h
    cases h

theorem scanWhile_le (p : Char → Bool) (s : List Char) :
    ∀ (fuel i : Nat), i ≤ s.length → scanWhile p s fuel i ≤ s.length := by
  intro fuel
  induction fuel with
  | zero => intro i h; exact h
  | succ n ih =>
    intro i h
    simp only [scanWhile]
    by_cases hc : i < s.length ∧ p (charAt s i) = true
    · rw [if_pos hc]
      exact ih (i + 1) hc.1
    · rw [if_neg hc]
      exact h

theorem skipDigits_le {s : List Char} {i : Nat} (h : i ≤ s.length) : skipDigits s i ≤ s.length :=
  scanWhile_le _ _ _ _ h

theorem skipDigits_ge (s : List Char) (i : Nat) : i ≤ skipDigits s i :=
  scanWhile_ge _ _ _ _

theorem ParseNumberExit_ok {Num : Type} (strtod : List Char → Option Num) (s : List Char)
    (j i c : Nat) (v : Value Num) (h : ParseNumberExit strtod s j i = .ret .kOK c v) :
    c = i ∧ ∃ n, v = .Number n := by
  unfold ParseNumberExit at h
  cases hst : stod strtod (substr s j (i - j)) with
  | ok d =>
    rw [hst] at h
    injection h with _ h2 h3
    exact ⟨h2.symm, d, h3.symm⟩
  | error e =>
    rw [hst] at h
    cases h

theorem ParseNumberExp_ok {Num : Type} (strtod : List Char → Option Num) (s : List Char)
    (j i c : Nat) (value v : Value Num) (hi : i ≤ s.length)
    (h : ParseNumberExp strtod s j i value = .ret .kOK c v) :
    i ≤ c ∧ c ≤ s.length ∧ ∃ n, v = .Number n := by
  unfold ParseNumberExp at h
  by_cases hE : toupper (charAt s i) = 'E'
  · rw [if_pos hE] at h
    by_cases h1 : i + 1 ≥ s.length
    · rw [if_pos h1] at h; cases h
    · rw [if_neg h1] at h
      by_cases hs : charAt s (i + 1) = '+' ∨ charAt s (i + 1) = '-'
      · rw [if_pos hs] at h
        by_cases h2 : i + 1 + 1 ≥ s.length
        · rw [if_pos h2] at h; cases h
        · rw [if_neg h2] at h
          obtain ⟨e1, e2⟩ := ParseNumberExit_ok strtod s j _ c v h
          have := skipDigits_ge s (i + 1 + 1)
          have := skipDigits_le (s := s) (i := i + 1 + 1) (by omega)
          exact ⟨by omega, by omega, e2⟩
      · rw [if_neg hs] at h
        obtain ⟨e1, e2⟩ := ParseNumberExit_ok strtod s j _ c v h
        have := skipDigits_ge s (i + 1)
        have := skipDigits_le (s := s) (i := i + 1) (by omega)
        exact ⟨by omega, by omega, e2⟩
  · rw [if_neg hE] at h
    obtain ⟨e1, e2⟩ := ParseNumberExit_ok strtod s j _ c v h
    exact ⟨by omega, by omega, e2⟩

theorem ParseNumberFrac_ok {Num : Type} (strtod : List Char → Option Num) (s : List Char)
    (j i c : Nat) (value v : Value Num) (hi : i ≤ s.length)
    (h : ParseNumberFrac strtod s j i value = .ret .kOK c v) :
    i ≤ c ∧ c ≤ s.length ∧ ∃ n, v = .Number n := by
  unfold ParseNumberFrac at h
  by_cases h0 : i ≥ s.length
  · rw [if_pos h0] at h
    obtain ⟨e1, e2⟩ := ParseNumberExit_ok strtod s j _ c v h
    exact ⟨by omega, by omega, e2⟩
  · rw [if_neg h0] at h
    by_cases hd : charAt s i = '.'
    · rw [if_pos hd] at h
      by_cases h1 : i + 1 ≥ s.length
      · rw [if_pos h1] at h; cases h
      · rw [if_neg h1] at h
        have g1 := skipDigits_ge s (i + 1)
        have g2 := skipDigits_le (s := s) (i := i + 1) (by omega)
        by_cases h2 : skipDigits s (i + 1) ≥ s.length
        · rw [if_pos h2] at h
          obtain ⟨e1, e2⟩ := ParseNumberExit_ok strtod s j _ c v h
          exact ⟨by omega, by omega, e2⟩
        · rw [if_neg h2] at h
          obtain ⟨e1, e2, e3⟩ := ParseNumberExp_ok strtod s j _ c value v g2 h
          exact ⟨by omega, e2, e3⟩
    · rw [if_neg hd] at h
      exact ParseNumberExp_ok strtod s j _ c value v hi h

theorem ParseNumberInt_ok {Num : Type} (strtod : List Char → Option Num) (s : List Char)
    (j i c : Nat) (value v : Value Num) (hi : i < s.length)
    (h : ParseNumberInt strtod s j i value = .ret .kOK c v) :
    i ≤ c ∧ (isdigit (charAt s i) = true → i < c) ∧ c ≤ s.length ∧ ∃ n, v = .Number n := by
  unfold ParseNumberInt at h
  by_cases h0 : charAt s i = '0'
  · rw [if_pos h0] at h
    obtain ⟨e1, e2, e3⟩ := ParseNumberFrac_ok strtod s j _ c value v (by omega) h
    exact ⟨by omega, fun _ => by omega, e2, e3⟩
  · rw [if_neg h0] at h
    by_cases h19 : charAt s i ≥ '1' ∧ charAt s i ≤ '9'
    · rw [if_pos h19] at h
      by_cases h1 : i + 1 ≥ s.length
      · rw [if_pos h1] at h; cases h
      · rw [if_neg h1] at h
        have g1 := skipDigits_ge s (i + 1)
        have g2 := skipDigits_le (s := s) (i := i + 1) (by omega)
        obtain ⟨e1, e2, e3⟩ := ParseNumberFrac_ok strtod s j _ c value v g2 h
        exact ⟨by omega, fun _ => by omega, e2, e3⟩
    · rw [if_neg h19] at h
      obtain ⟨e1, e2, e3⟩ := ParseNumberFrac_ok strtod s j _ c value v (by omega) h
      refine ⟨e1, ?_, e2, e3⟩
      intro hd
      exfalso
      simp only [isdigit, decide_eq_true_eq] at hd
      rw [char_le_iff, char_le_iff] at hd
      apply h19
      refine ⟨?_, by rw [char_le_iff]; exact hd.2⟩
      show '1' ≤ charAt s i
      rw [char_le_iff]
      have hne : (charAt s i).toNat ≠ ('0' : Char).toNat := by
        intro heq
        exact h0 (char_eq_of_toNat (by omega) (by omega))
      have h48 : ('0' : Char).toNat = 48 := rfl
      have h49 : ('1' : Char).toNat = 49 := rfl
      omega

/-- A call of `ParseNumber` at a digit or a minus sign that returns `kOK` has
moved the cursor forward, not past the end, and stored a `Number`. -/
theorem ParseNumber_ok {Num : Type} (strtod : List Char → Option Num) (s : List Char)
    (start c : Nat) (value v : Value Num) (hi : start < s.length)
    (hd : isdigit (charAt s start) = true ∨ charAt s start = '-')
    (h : ParseNumber strtod s start value = .ret .kOK c v) :
    start < c ∧ c ≤ s.length ∧ ∃ n, v = .Number n := by
  unfold ParseNumber at h
  by_cases hm : charAt s start = '-'
  · rw [if_pos hm] at h
    by_cases h1 : start + 1 ≥ s.length
    · rw [if_pos h1] at h; cases h
    · rw [if_neg h1] at h
      obtain ⟨e1, _, e2, e3⟩ := ParseNumberInt_ok strtod s start _ c value v (by omega) h
      exact ⟨by omega, e2, e3⟩
  · rw [if_neg hm] at h
    obtain ⟨_, e1, e2, e3⟩ := ParseNumberInt_ok strtod s start _ c value v hi h
    rcases hd with hd | hd
    · exact ⟨e1 hd, e2, e3⟩
    · exact absurd hd hm

/-- A call of `ParseOthers` that returns `kOK` has read a keyword. -/
theorem ParseOthers_ok {Num : Type} (s : List Char) (start c : Nat) (value v : Value Num)
    (h : ParseOthers s start value = .ret .kOK c v) :
    ∃ k : Keyword, s.drop start = k.text ++ s.drop (start + k.text.length) ∧
      c = start + k.text.length ∧ v = k.value := by
  have key : ∀ (name : List Char), substr s start name.length = name →
      s.drop start = name ++ s.drop (start + name.length) := by
    intro name hsub
    have := List.take_append_drop name.length (s.drop start)
    rw [substr] at hsub
    rw [hsub, List.drop_drop] at this
    rw [← this]
  simp only [ParseOthers, token_info, ParseOthersLoop] at h
  by_cases h1 : start + "true".toList.length - 1 < s.length ∧
      substr s start "true".toList.length = "true".toList
  · rw [if_pos h1] at h
    injection h with _ h2 h3
    exact ⟨.true, key _ h1.2, h2.symm, h3.symm⟩
  · rw [if_neg h1] at h
    by_cases h2 : start + "false".toList.length - 1 < s.length ∧
        substr s start "false".toList.length = "false".toList
    · rw [if_pos h2] at h
      injection h with _ h2' h3
      exact ⟨.false, key _ h2.2, h2'.symm, h3.symm⟩
    · rw [if_neg h2] at h
      by_cases h3 : start + "null".toList.length - 1 < s.length ∧
          substr s start "null".toList.length = "null".toList
      · rw [if_pos h3] at h
        injection h with _ h2' h3'
        exact ⟨.null, key _ h3.2, h2'.symm, h3'.symm⟩
      · rw [if_neg h3] at h
        cases h

/-- A call of the loop of `ParseArray` that returns `kOK` leaves the cursor at
or behind the place it was entered at, not past the end. -/
theorem ParseArrayLoop_ok {Num : Type} (helper : List Char → Nat → Value Num → Outcome Num)
    (s : List Char) (start : Nat) (hg : GoodHelper helper s) :
    ∀ (lf i : Nat) (a : List (Value Num)) (c : Nat) (v : Value Num), i ≤ s.length →
      ParseArrayLoop helper s start lf i a = .ret .kOK c v →
      i ≤ c ∧ c ≤ s.length ∧ (i < s.length → i < c) := by
  intro lf
  induction lf with
  | zero => intro i a c v _ h; cases h
  | succ lf ih =>
    intro i a c v hi h
    rw [ParseArrayLoop_succ] at h
    by_cases hlt : i < s.length
    · rw [if_pos hlt] at h
      by_cases hk : SkipSpace s i ≥ s.length
      · rw [if_pos hk] at h; cases h
      · rw [if_neg hk] at h
        have hge := SkipSpace_ge_self s i
        by_cases hb : charAt s (SkipSpace s i) = ']'
        · rw [if_pos hb] at h
          injection h with _ h2 h3
          subst h2 h3
          exact ⟨by omega, by omega, fun _ => by omega⟩
        · rw [if_neg hb] at h
          cases hr : helper s (SkipSpace s i) .Uninitialized with
          | ret err i1 v1 =>
            rw [hr] at h
            cases err with
            | kOK =>
              simp only at h
              obtain ⟨g1, g2⟩ := hg _ _ _ hr (by rw [SkipSpace_idem]; omega)
              rw [SkipSpace_idem] at g1
              have hge1 := SkipSpace_ge_self s i1
              by_cases hcp : v1.copyConstructs = false
              · rw [if_pos hcp] at h; cases h
              rw [if_neg hcp] at h
              by_cases hk1 : SkipSpace s i1 ≥ s.length
              · rw [if_pos hk1] at h; cases h
              · rw [if_neg hk1] at h
                by_cases hcm : charAt s (SkipSpace s i1) = ','
                · rw [if_pos hcm] at h
                  obtain ⟨e1, e2, _⟩ := ih _ _ c v (by omega) h
                  exact ⟨by omega, e2, fun _ => by omega⟩
                · rw [if_neg hcm] at h
                  obtain ⟨e1, e2, _⟩ := ih _ _ c v (by omega) h
                  exact ⟨by omega, e2, fun _ => by omega⟩
            | kInvalidToken =>
              simp only at h
              cases h
          | thrown e => rw [hr] at h; cases h
          | assertFailed => rw [hr] at h; cases h
          | outOfFuel => rw [hr] at h; cases h
          | undefined => rw [hr] at h; cases h
    · rw [if_neg hlt] at h
      injection h with _ h2 h3
      subst h2 h3
      exact ⟨Nat.le_refl _, hi, fun hh => absurd hh hlt⟩

/-- A call of the loop of `ParseObject` that returns `kOK` leaves the cursor at
or behind the place it was entered at, not past the end. -/
theorem ParseObjectLoop_ok {Num : Type} (helper : List Char → Nat → Value Num → Outcome Num)
    (s : List Char) (start : Nat) (hg : GoodHelper helper s) :
    ∀ (lf i : Nat) (o : List (List Char × Value Num)) (c : Nat) (v : Value Num),
      i ≤ s.length → ParseObjectLoop helper s start lf i o = .ret .kOK c v →
      i ≤ c ∧ c ≤ s.length ∧ (i < s.length → i < c) := by
  intro lf
  induction lf with
  | zero => intro i o c v _ h; cases h
  | succ lf ih =>
    intro i o c v hi h
    rw [ParseObjectLoop_succ] at h
    by_cases hlt : i < s.length
    · rw [if_pos hlt] at h
      by_cases hk : SkipSpace s i ≥ s.length
      · rw [if_pos hk] at h; cases h
      · rw [if_neg hk] at h
        have hge := SkipSpace_ge_self s i
        by_cases hb : charAt s (SkipSpace s i) = '}'
        · rw [if_pos hb] at h
          injection h with _ h2 h3
          subst h2 h3
          exact ⟨by omega, by omega, fun _ => by omega⟩
        · rw [if_neg hb] at h
          cases hps : ParseString s (SkipSpace s i) (.Uninitialized : Value Num) with
          | ret err i1 str =>
            rw [hps] at h
            cases err with
            | kOK =>
              simp only at h
              obtain ⟨b, rest, p1, p2, p3, p4⟩ := ParseString_complete s _ _ _ _ hps
              subst p4
              have hi1 : i1 ≤ s.length := by
                have := (drop_cons_info (drop_append_info ('"' :: b) _
                  (by simpa using p1 : s.drop (SkipSpace s i) = ('"' :: b) ++ '"' :: rest))).1
                simp only [List.length_cons] at this
                omega
              by_cases hc : SkipSpace s i1 ≥ s.length ∨ charAt s (SkipSpace s i1) ≠ ':'
              · rw [if_pos hc] at h; cases h
              · rw [if_neg hc] at h
                by_cases hk2 : SkipSpace s (SkipSpace s i1 + 1) ≥ s.length
                · rw [if_pos hk2] at h; cases h
                · rw [if_neg hk2] at h
                  have hge1 := SkipSpace_ge_self s i1
                  have hge2 := SkipSpace_ge_self s (SkipSpace s i1 + 1)
                  cases hr : helper s (SkipSpace s (SkipSpace s i1 + 1)) .Uninitialized with
                  | ret err2 i2 v2 =>
                    rw [hr] at h
                    cases err2 with
                    | kOK =>
                      simp only at h
                      obtain ⟨g1, g2⟩ := hg _ _ _ hr (by rw [SkipSpace_idem]; omega)
                      rw [SkipSpace_idem] at g1
                      have hge3 := SkipSpace_ge_self s i2
                      by_cases hcp : v2.assigns = false
                      · rw [if_pos hcp] at h; cases h
                      rw [if_neg hcp] at h
                      by_cases hk3 : SkipSpace s i2 ≥ s.length
                      · rw [if_pos hk3] at h; cases h
                      · rw [if_neg hk3] at h
                        by_cases hcm : charAt s (SkipSpace s i2) = ','
                        · rw [if_pos hcm] at h
                          obtain ⟨e1, e2, _⟩ := ih _ _ c v (by omega) h
                          exact ⟨by omega, e2, fun _ => by omega⟩
                        · rw [if_neg hcm] at h
                          obtain ⟨e1, e2, _⟩ := ih _ _ c v (by omega) h
                          exact ⟨by omega, e2, fun _ => by omega⟩
                    | kInvalidToken =>
                      simp only at h
                      cases h
                  | thrown e => rw [hr] at h; cases h
                  | assertFailed => rw [hr] at h; cases h
                  | outOfFuel => rw [hr] at h; cases h
                  | undefined => rw [hr] at h; cases h
            | kInvalidToken =>
              simp only at h
              cases h
          | thrown e => rw [hps] at h; cases h
          | assertFailed => rw [hps] at h; cases h
          | outOfFuel => rw [hps] at h; cases h
          | undefined => rw [hps] at h; cases h
    · rw [if_neg hlt] at h
      injection h with _ h2 h3
      subst h2 h3
      exact ⟨Nat.le_refl _, hi, fun hh => absurd hh hlt⟩

theorem Keyword.text_length_pos (k : Keyword) : 0 < k.text.length := by
  cases k <;> decide

/-- A call of `ParseHelper` that finds a character behind the whitespace and
returns `kOK` has moved the cursor forward from that character, not past the
end of the text. -/
theorem ParseHelper_ok {Num : Type} (strtod : List Char → Option Num) (s : List Char) :
    ∀ (hf i j : Nat) (value v : Value Num),
      ParseHelper strtod hf s i value = .ret .kOK j v → SkipSpace s i < s.length →
      SkipSpace s i < j ∧ j ≤ s.length := by
  intro hf
  induction hf with
  | zero => intro i j value v h; cases h
  | succ hf ih =>
    intro i j value v h hk
    have hg : GoodHelper (ParseHelper strtod hf) s := fun k j v hh hkk => ih k j _ v hh hkk
    rw [ParseHelper_succ, if_neg (Nat.not_le.mpr hk)] at h
    by_cases hq : charAt s (SkipSpace s i) = '"'
    · rw [if_pos hq] at h
      obtain ⟨b, rest, p1, p2, p3, p4⟩ := ParseString_complete s _ _ _ _ h
      have := (drop_cons_info (drop_append_info ('"' :: b) _
        (by simpa using p1 : s.drop (SkipSpace s i) = ('"' :: b) ++ '"' :: rest))).1
      simp only [List.length_cons] at this
      exact ⟨by omega, by omega⟩
    · rw [if_neg hq] at h
      by_cases hd : isdigit (charAt s (SkipSpace s i)) = true ∨ charAt s (SkipSpace s i) = '-'
      · rw [if_pos hd] at h
        obtain ⟨e1, e2, _⟩ := ParseNumber_ok strtod s _ j value v hk hd h
        exact ⟨e1, e2⟩
      · rw [if_neg hd] at h
        by_cases ha : charAt s (SkipSpace s i) = '['
        · rw [if_pos ha, ParseArray, if_neg (not_not.mpr ha)] at h
          obtain ⟨e1, e2, _⟩ := ParseArrayLoop_ok _ s _ hg _ _ [] j v (by omega) h
          exact ⟨by omega, e2⟩
        · rw [if_neg ha] at h
          by_cases ho : charAt s (SkipSpace s i) = '{'
          · rw [if_pos ho, ParseObject, if_neg (not_not.mpr ho)] at h
            obtain ⟨e1, e2, _⟩ := ParseObjectLoop_ok _ s _ hg _ _ [] j v (by omega) h
            exact ⟨by omega, e2⟩
          · rw [if_neg ho] at h
            obtain ⟨k, p1, p2, p3⟩ := ParseOthers_ok s _ j value v h
            have hpos := k.text_length_pos
            have hle : SkipSpace s i + k.text.length ≤ s.length := by
              have := congrArg List.length p1
              simp only [List.length_drop, List.length_append] at this
              omega
            exact ⟨by omega, by omega⟩

theorem ParseHelper_good {Num : Type} (strtod : List Char → Option Num) (hf : Nat)
    (s : List Char) : GoodHelper (ParseHelper strtod hf) s :=
  fun k j v h hk => ParseHelper_ok strtod s hf k j _ v h hk

/-! ## The nesting depth and the turns of the loops -/

theorem ParseStringLoop_ne_outOfFuel {Num : Type} (s : List Char) (start j : Nat) :
    ∀ (fuel i : Nat), (ParseStringLoop s start j fuel i : Outcome Num) ≠ .outOfFuel := by
  intro fuel
  induction fuel with
  | zero => intro i h; cases h
  | succ n ih =>
    intro i
    rw [ParseStringLoop]
    split_ifs
    all_goals first
      | exact ih _
      | (intro h; cases h)

theorem ParseString_ne_outOfFuel {Num : Type} (s : List Char) (start : Nat)
    (value : Value Num) : ParseString s start value ≠ .outOfFuel := by
  rw [ParseString]
  split_ifs
  · intro h; cases h
  · exact ParseStringLoop_ne_outOfFuel s start _ _ _

theorem ParseNumberExit_ne_outOfFuel {Num : Type} (strtod : List Char → Option Num)
    (s : List Char) (j i : Nat) : ParseNumberExit strtod s j i ≠ .outOfFuel := by
  unfold ParseNumberExit
  cases stod strtod (substr s j (i - j)) with
  | ok d => intro h; cases h
  | error e => intro h; cases h

theorem ParseNumberExp_ne_outOfFuel {Num : Type} (strtod : List Char → Option Num)
    (s : List Char) (j i : Nat) (value : Value Num) :
    ParseNumberExp strtod s j i value ≠ .outOfFuel := by
  unfold ParseNumberExp
  split_ifs
  all_goals first
    | exact ParseNumberExit_ne_outOfFuel strtod s _ _
    | (intro h; cases h)

theorem ParseNumberFrac_ne_outOfFuel {Num : Type} (strtod : List Char → Option Num)
    (s : List Char) (j i : Nat) (value : Value Num) :
    ParseNumberFrac strtod s j i value ≠ .outOfFuel := by
  unfold ParseNumberFrac
  split_ifs
  all_goals first
    | exact ParseNumberExit_ne_outOfFuel strtod s _ _
    | exact ParseNumberExp_ne_outOfFuel strtod s _ _ _
    | (intro h; cases h)

theorem ParseNumberInt_ne_outOfFuel {Num : Type} (strtod : List Char → Option Num)
    (s : List Char) (j i : Nat) (value : Value Num) :
    ParseNumberInt strtod s j i value ≠ .outOfFuel := by
  unfold ParseNumberInt
  split_ifs
  all_goals first
    | exact ParseNumberFrac_ne_outOfFuel strtod s _ _ _
    | (intro h; cases h)

theorem ParseNumber_ne_outOfFuel {Num : Type} (strtod : List Char → Option Num)
    (s : List Char) (start : Nat) (value : Value Num) :
    ParseNumber strtod s start value ≠ .outOfFuel := by
  unfold ParseNumber
  split_ifs
  all_goals first
    | exact ParseNumberInt_ne_outOfFuel strtod s _ _ _
    | (intro h; cases h)

theorem ParseOthers_ne_outOfFuel {Num : Type} (s : List Char) (start : Nat)
    (value : Value Num) : ParseOthers s start value ≠ .outOfFuel := by
  simp only [ParseOthers, token_info, ParseOthersLoop]
  split_ifs
  all_goals (intro h; cases h)

/-- The loop of `ParseArray` does not run out of turns when it is given more
turns than characters are left, unless a call of the helper runs out: each
turn that does not end the loop goes on at a cursor that is strictly
further. -/
theorem ParseArrayLoop_ne_outOfFuel {Num : Type}
    (helper : List Char → Nat → Value Num → Outcome Num) (s : List Char) (start : Nat)
    (hg : GoodHelper helper s) :
    ∀ (lf i : Nat) (a : List (Value Num)), s.length - i < lf →
      (∀ k, i ≤ k → helper s k .Uninitialized ≠ .outOfFuel) →
      ParseArrayLoop helper s start lf i a ≠ .outOfFuel := by
  intro lf
  induction lf with
  | zero => intro i a h; omega
  | succ lf ih =>
    intro i a hlf hnf
    rw [ParseArrayLoop_succ]
    by_cases hi : i < s.length
    · rw [if_pos hi]
      have hge := SkipSpace_ge_self s i
      by_cases hk : SkipSpace s i ≥ s.length
      · rw [if_pos hk]; intro h; cases h
      rw [if_neg hk]
      by_cases hb : charAt s (SkipSpace s i) = ']'
      · rw [if_pos hb]; intro h; cases h
      rw [if_neg hb]
      cases hr : helper s (SkipSpace s i) .Uninitialized with
      | ret err i1 v1 =>
        cases err with
        | kOK =>
          obtain ⟨g1, g2⟩ := hg _ _ _ hr (by rw [SkipSpace_idem]; omega)
          rw [SkipSpace_idem] at g1
          have hge1 := SkipSpace_ge_self s i1
          simp only
          by_cases hcp : v1.copyConstructs = false
          · rw [if_pos hcp]; intro h; cases h
          rw [if_neg hcp]
          by_cases hk1 : SkipSpace s i1 ≥ s.length
          · rw [if_pos hk1]; intro h; cases h
          rw [if_neg hk1]
          by_cases hcm : charAt s (SkipSpace s i1) = ','
          · rw [if_pos hcm]
            exact ih _ _ (by omega) (fun k hk2 => hnf k (by omega))
          · rw [if_neg hcm]
            exact ih _ _ (by omega) (fun k hk2 => hnf k (by omega))
        | kInvalidToken => intro h; cases h
      | thrown e => intro h; cases h
      | assertFailed => intro h; cases h
      | outOfFuel => exact absurd hr (hnf _ hge)
      | undefined => intro h; cases h
    · rw [if_neg hi]
      intro h; cases h

/-- The loop of `ParseObject` does not run out of turns when it is given more
turns than characters are left, unless a call of the helper runs out: each
turn that does not end the loop goes on at a cursor that is strictly
further. -/
theorem ParseObjectLoop_ne_outOfFuel {Num : Type}
    (helper : List Char → Nat → Value Num → Outcome Num) (s : List Char) (start : Nat)
    (hg : GoodHelper helper s) :
    ∀ (lf i : Nat) (o : List (List Char × Value Num)), s.length - i < lf →
      (∀ k, i ≤ k → helper s k .Uninitialized ≠ .outOfFuel) →
      ParseObjectLoop helper s start lf i o ≠ .outOfFuel := by
  intro lf
  induction lf with
  | zero => intro i o h; omega
  | succ lf ih =>
    intro i o hlf hnf
    rw [ParseObjectLoop_succ]
    by_cases hi : i < s.length
    · rw [if_pos hi]
      have hge := SkipSpace_ge_self s i
      by_cases hk : SkipSpace s i ≥ s.length
      · rw [if_pos hk]; intro h; cases h
      rw [if_neg hk]
      by_cases hb : charAt s (SkipSpace s i) = '}'
      · rw [if_pos hb]; intro h; cases h
      rw [if_neg hb]
      cases hps : ParseString s (SkipSpace s i) (.Uninitialized : Value Num) with
      | ret err i1 str =>
        cases err with
        | kOK =>
          obtain ⟨b, rest, p1, p2, p3, p4⟩ := ParseString_complete s _ _ _ _ hps
          subst p4
          have hge1 := SkipSpace_ge_self s i1
          have hge2 := SkipSpace_ge_self s (SkipSpace s i1 + 1)
          simp only
          by_cases hc : SkipSpace s i1 ≥ s.length ∨ charAt s (SkipSpace s i1) ≠ ':'
          · rw [if_pos hc]; intro h; cases h
          rw [if_neg hc]
          by_cases hk2 : SkipSpace s (SkipSpace s i1 + 1) ≥ s.length
          · rw [if_pos hk2]; intro h; cases h
          rw [if_neg hk2]
          cases hr : helper s (SkipSpace s (SkipSpace s i1 + 1)) .Uninitialized with
          | ret err2 i2 v2 =>
            cases err2 with
            | kOK =>
              obtain ⟨g1, g2⟩ := hg _ _ _ hr (by rw [SkipSpace_idem]; omega)
              rw [SkipSpace_idem] at g1
              have hge3 := SkipSpace_ge_self s i2
              simp only
              by_cases hcp : v2.assigns = false
              · rw [if_pos hcp]; intro h; cases h
              rw [if_neg hcp]
              by_cases hk3 : SkipSpace s i2 ≥ s.length
              · rw [if_pos hk3]; intro h; cases h
              rw [if_neg hk3]
              by_cases hcm : charAt s (SkipSpace s i2) = ','
              · rw [if_pos hcm]
                exact ih _ _ (by omega) (fun k hk4 => hnf k (by omega))
              · rw [if_neg hcm]
                exact ih _ _ (by omega) (fun k hk4 => hnf k (by omega))
            | kInvalidToken => intro h; cases h
          | thrown e => intro h; cases h
          | assertFailed => intro h; cases h
          | outOfFuel => exact absurd hr (hnf _ (by omega))
          | undefined => intro h; cases h
        | kInvalidToken => intro h; cases h
      | thrown e => intro h; cases h
      | assertFailed => intro h; cases h
      | outOfFuel => exact absurd hps (ParseString_ne_outOfFuel s _ _)
      | undefined => intro h; cases h
    · rw [if_neg hi]
      intro h; cases h

/-- `ParseHelper` does not run out of nesting depth when it is allowed a depth
above the number of characters left. -/
theorem ParseHelper_ne_outOfFuel {Num : Type} (strtod : List Char → Option Num)
    (s : List Char) :
    ∀ (hf i : Nat) (value : Value Num), s.length - i < hf →
      ParseHelper strtod hf s i value ≠ .outOfFuel := by
  intro hf
  induction hf with
  | zero => intro i value h; omega
  | succ hf ih =>
    intro i value hlt
    rw [ParseHelper_succ]
    have hge := SkipSpace_ge_self s i
    by_cases hk : SkipSpace s i ≥ s.length
    · rw [if_pos hk]; intro h; cases h
    rw [if_neg hk]
    by_cases hq : charAt s (SkipSpace s i) = '"'
    · rw [if_pos hq]; exact ParseString_ne_outOfFuel s _ _
    rw [if_neg hq]
    by_cases hd : isdigit (charAt s (SkipSpace s i)) = true ∨ charAt s (SkipSpace s i) = '-'
    · rw [if_pos hd]; exact ParseNumber_ne_outOfFuel strtod s _ _
    rw [if_neg hd]
    by_cases ha : charAt s (SkipSpace s i) = '['
    · rw [if_pos ha, ParseArray, if_neg (not_not.mpr ha)]
      exact ParseArrayLoop_ne_outOfFuel _ s _ (ParseHelper_good strtod hf s) _ _ _ (by omega)
        (fun k hk2 => ih k _ (by omega))
    rw [if_neg ha]
    by_cases ho : charAt s (SkipSpace s i) = '{'
    · rw [if_pos ho, ParseObject, if_neg (not_not.mpr ho)]
      exact ParseObjectLoop_ne_outOfFuel _ s _ (ParseHelper_good strtod hf s) _ _ _ (by omega)
        (fun k hk2 => ih k _ (by omega))
    rw [if_neg ho]
    exact ParseOthers_ne_outOfFuel s _ _

/-- `Parse` does not run out of the nesting depth and the turns it allows. -/
theorem Parse_ne_outOfFuel {Num : Type} (strtod : List Char → Option Num) (s : List Char)
    (value : Value Num) : Parse strtod s value ≠ .outOfFuel :=
  ParseHelper_ne_outOfFuel strtod s _ 0 value (by omega)

/-! ## A text behind leading whitespace -/

/-- C1: on a text made of whitespace only (the empty text too) `Parse` on a
fresh `Value` returns `kOK` and leaves the value `Uninitialized`, which is not
`Null` and prints as `<undef>`. -/
theorem Parse_whitespace_only {Num : Type} (strtod : List Char → Option Num)
    (fmt : Num → List Char) (s : List Char) (h : ∀ c ∈ s, isspace c = true) :
    Parse strtod s .Uninitialized = .ret .kOK s.length .Uninitialized ∧
      (Value.Uninitialized : Value Num) ≠ .Null ∧
      Value.ToString fmt (.Uninitialized : Value Num) = "<undef>".toList := by
  refine ⟨?_, ?_, rfl⟩
  swap
  · intro hne
    cases hne
  have hk : SkipSpace s 0 = s.length := SkipSpace_ws_end (Nat.zero_le _) rfl h
  rw [Parse, ParseHelper_succ, hk]
  simp

theorem Parse_whitespace_only_witness :
    (∀ c ∈ " \t\n".toList, isspace c = true) ∧
      (Parse textDouble " \t\n".toList .Uninitialized = .ret .kOK 3 .Uninitialized ∧
        (Value.Uninitialized : Value (List Char)) ≠ .Null ∧
        Value.ToString textFormat (.Uninitialized : Value (List Char)) = "<undef>".toList) :=
  ⟨by decide, Parse_whitespace_only textDouble textFormat " \t\n".toList (by decide)⟩

/-- C2: for a well-formed quoted string `"b"` `Parse` returns `kOK` with the
`String` whose bytes are `b` as written (escapes not decoded), and `ToString`
of that value is the text `"b"` again. -/
theorem Parse_quoted_string {Num : Type} (strtod : List Char → Option Num)
    (fmt : Num → List Char) (b : List Char) (value : Value Num)
    (h : wellFormedBody b = true) :
    Parse strtod (quoted b) value = .ret .kOK (b.length + 2) (.String b) ∧
      Value.ToString fmt (.String b : Value Num) = quoted b := by
  refine ⟨?_, rfl⟩
  have hs : (quoted b).drop 0 = [] ++ '"' :: (b ++ '"' :: []) := rfl
  rw [Parse, ParseHelper_quote strtod _ value hs (by simp)]
  have := ParseString_ok value (quoted b) 0 b [] rfl h
  simpa using this

theorem Parse_quoted_string_witness :
    wellFormedBody "a\\n\\u002f".toList = true ∧
      (Parse textDouble (quoted "a\\n\\u002f".toList) .Uninitialized =
          .ret .kOK 11 (.String "a\\n\\u002f".toList) ∧
        Value.ToString textFormat (.String "a\\n\\u002f".toList : Value (List Char)) =
          quoted "a\\n\\u002f".toList) :=
  ⟨by decide, Parse_quoted_string textDouble textFormat "a\\n\\u002f".toList .Uninitialized
    (by decide)⟩

/-- C3, at the failing inputs: on the one-digit number `3` and on `-5`
`ParseNumber` returns `kInvalidToken` at its check `i >= s.size()` behind the
first digit, where the claim has `kOK` with a `Number`; the target is left as
it was. -/
theorem Parse_single_digit_invalid {Num : Type} (strtod : List Char → Option Num)
    (value : Value Num) :
    Parse strtod "3".toList value = .ret .kInvalidToken 1 value ∧
      Parse strtod "-5".toList value = .ret .kInvalidToken 2 value := by
  constructor <;> rfl

/-- C6: for a non-empty list `es` of keywords, `Parse` of `[` + the keywords
joined by `, ` + `]` and `Parse` of the same text with `,]` at the end both
return `kOK` with the `Array` of the keyword values in input order, and
`ToString` of that array is the text without the trailing comma. -/
theorem Parse_keyword_array_trailing_comma {Num : Type} (strtod : List Char → Option Num)
    (fmt : Num → List Char) (es : List Keyword) (value : Value Num) (h : es ≠ []) :
    Parse strtod ('[' :: joinSep ", ".toList (es.map Keyword.text) ++ "]".toList) value =
        .ret .kOK ((joinSep ", ".toList (es.map Keyword.text)).length + 2)
          (.Array (es.map Keyword.value)) ∧
      Parse strtod ('[' :: joinSep ", ".toList (es.map Keyword.text) ++ ",]".toList) value =
        .ret .kOK ((joinSep ", ".toList (es.map Keyword.text)).length + 3)
          (.Array (es.map Keyword.value)) ∧
      Value.ToString fmt (.Array (es.map Keyword.value) : Value Num) =
        '[' :: joinSep ", ".toList (es.map Keyword.text) ++ "]".toList := by
  have htext : elemsText (spacedElems true
      (es.map (fun k => (k.text, (k.value : Value Num))))) =
      joinSep ", ".toList (es.map Keyword.text) := by
    rw [elemsText_spacedElems, List.map_map]; rfl
  have hval : (spacedElems true (es.map (fun k => (k.text, (k.value : Value Num))))).map
      Elem.value = es.map Keyword.value := by
    rw [spacedElems_values, List.map_map]; rfl
  have hp := spacedElems_parses strtod true (es.map (fun k => (k.text, (k.value : Value Num))))
    (by
      intro p hp
      obtain ⟨k, _, rfl⟩ := List.mem_map.mp hp
      exact Keyword.parsesAs strtod k)
  have hne := spacedElems_ne_nil true (es.map (fun k => (k.text, (k.value : Value Num))))
    (by simpa using h)
  have hcp : ∀ e ∈ spacedElems true (es.map (fun k => (k.text, (k.value : Value Num)))),
      e.value.copyConstructs = true := by
    intro e he
    have hmem : e.value ∈ es.map (Keyword.value : Keyword → Value Num) := by
      rw [← hval]
      exact List.mem_map_of_mem _ he
    obtain ⟨k, _, hk⟩ := List.mem_map.mp hmem
    rw [← hk]
    cases k <;> rfl
  refine ⟨?_, ?_, ?_⟩
  · have := Parse_array strtod
      ('[' :: joinSep ", ".toList (es.map Keyword.text) ++ "]".toList) [] _ [] value
      (by rw [htext]; simp) rfl hne hp hcp
    rw [this, hval, htext]
    simp
    omega
  · have := Parse_array_trailing_comma strtod
      ('[' :: joinSep ", ".toList (es.map Keyword.text) ++ ",]".toList) [] _ [] [] value
      (by rw [htext]; simp) rfl rfl hne hp hcp
    rw [this, hval, htext]
    simp
    omega
  · rw [Value.ToString, ToStringArray_true, List.map_map]
    have : (Value.ToString fmt ∘ fun k : Keyword => (k.value : Value Num)) = Keyword.text := by
      funext k
      exact Keyword.toString_value fmt k
    rw [this]
    rfl

theorem Parse_keyword_array_trailing_comma_witness :
    [Keyword.true, Keyword.false, Keyword.null] ≠ [] ∧
      (Parse textDouble "[true, false, null]".toList .Uninitialized =
          .ret .kOK 19 (.Array [.Boolean true, .Boolean false, .Null]) ∧
        Parse textDouble "[true, false, null,]".toList .Uninitialized =
          .ret .kOK 20 (.Array [.Boolean true, .Boolean false, .Null]) ∧
        Value.ToString textFormat
            (.Array [.Boolean true, .Boolean false, .Null] : Value (List Char)) =
          "[true, false, null]".toList) :=
  ⟨by decide, Parse_keyword_array_trailing_comma textDouble textFormat
    [Keyword.true, Keyword.false, Keyword.null] .Uninitialized (by decide)⟩

/-- C10, at the failing inputs: on `[`, on an opening brace alone and on
`[true,` the loop condition `i < s.size()` is false where a closing bracket is
due, and `Parse` returns `kOK` with the array or object built so far, where
the claim has `kInvalidToken`. -/
theorem Parse_unclosed_bracket_ok {Num : Type} (strtod : List Char → Option Num)
    (value : Value Num) :
    Parse strtod "[".toList value = .ret .kOK 1 (.Array []) ∧
      Parse strtod ['{'] value = .ret .kOK 1 (.Object []) ∧
      Parse strtod "[true,".toList value = .ret .kOK 6 (.Array [.Boolean true]) := by
  refine ⟨rfl, rfl, rfl⟩

/-- C8: an unterminated string is rejected.  When the first character that is
not whitespace is `"` and no unescaped `"` follows before the end of the input
(the input may end in a stray backslash), `Parse` returns `kInvalidToken`. -/
theorem Parse_unterminated_string {Num : Type} (strtod : List Char → Option Num)
    (w body : List Char) (value : Value Num) (hw : allSpace w = true)
    (hb : hasUnescapedQuote body = false) :
    Parse strtod (w ++ '"' :: body) value = .ret .kInvalidToken w.length (.String []) := by
  have hs : (w ++ '"' :: body).drop 0 = w ++ '"' :: body := rfl
  rw [Parse, ParseHelper_quote strtod _ value hs (allSpace_iff.mp hw), Nat.zero_add]
  exact ParseString_unterminated value _ _ body (by simp) hb

theorem Parse_unterminated_string_witness :
    allSpace " ".toList = true ∧ hasUnescapedQuote "ab\\\"c\\".toList = false ∧
      Parse textDouble (" ".toList ++ '"' :: "ab\\\"c\\".toList) .Uninitialized =
        .ret .kInvalidToken 1 (.String []) :=
  ⟨by decide, by decide,
    Parse_unterminated_string textDouble " ".toList "ab\\\"c\\".toList .Uninitialized
      (by decide) (by decide)⟩

/-- C11, at the failing input: on the quoted string `"\x"` the loop of
`ParseString` steps over the backslash and the `x` behind it, there is no
branch for a character outside the escape set, and `Parse` returns `kOK` with
the `String` of the two characters `\x`, where the claim has
`kInvalidToken`. -/
theorem Parse_invalid_escape_ok {Num : Type} (strtod : List Char → Option Num)
    (value : Value Num) :
    Parse strtod "\"\\x\"".toList value = .ret .kOK 4 (.String "\\x".toList) := rfl

/-- C13, at the failing input: on `3.x` the character behind the dot is no
digit and the input does not end there; `ParseNumber` checks the end of input
only, goes to `Exit` with the text `3.` and returns `kOK` with the `Number`
that `std::stod` makes of it (or `std::stod` throws `std::out_of_range`),
where the claim has `kInvalidToken`. -/
theorem Parse_dot_without_digit_ok {Num : Type} (strtod : List Char → Option Num)
    (value : Value Num) :
    (∃ d, strtod "3.".toList = some d ∧
        Parse strtod "3.x".toList value = .ret .kOK 2 (.Number d)) ∨
      (strtod "3.".toList = none ∧
        Parse strtod "3.x".toList value = .thrown .out_of_range) := by
  have h : Parse strtod "3.x".toList value = ParseNumberExit strtod "3.x".toList 0 2 := rfl
  have hsub : substr "3.x".toList 0 (2 - 0) = "3.".toList := rfl
  have hconv : stodHasConversion "3.".toList = true := by decide
  rw [h, ParseNumberExit, hsub, stod, if_pos hconv]
  cases hd : strtod "3.".toList with
  | none => exact Or.inr ⟨rfl, rfl⟩
  | some d => exact Or.inl ⟨d, rfl, rfl⟩

/-- C14, at the failing inputs: on `-x` and on `[-]` the character behind
the minus is no digit; `ParseNumber` goes to `Exit` with the text `-`, on
which `std::stod` throws `std::invalid_argument`: the call does not return,
where the claim has the return value `kInvalidToken`. -/
theorem Parse_minus_without_digit_throws {Num : Type} (strtod : List Char → Option Num)
    (value : Value Num) :
    Parse strtod "-x".toList value = .thrown .invalid_argument ∧
      Parse strtod "[-]".toList value = .thrown .invalid_argument := ⟨rfl, rfl⟩

/-- C16: what follows a valid value is ignored.  For every text `u`,
`Parse` of `true` + `u`, `false` + `u` and `null` + `u` returns `kOK` with
`Boolean true`, `Boolean false` and `Null`, and for a well-formed quoted
string `q` the call on `q` + `u` returns what the call on `q` returns: the
same error, cursor and value. -/
theorem Parse_trailing_content {Num : Type} (strtod : List Char → Option Num)
    (u b : List Char) (value : Value Num) (h : wellFormedBody b = true) :
    Parse strtod ("true".toList ++ u) value = .ret .kOK 4 (.Boolean true) ∧
      Parse strtod ("false".toList ++ u) value = .ret .kOK 5 (.Boolean false) ∧
      Parse strtod ("null".toList ++ u) value = .ret .kOK 4 .Null ∧
      Parse strtod (quoted b ++ u) value = Parse strtod (quoted b) value := by
  refine ⟨?_, ?_, ?_, ?_⟩
  · have := ParseHelper_keyword strtod .true ("true".toList ++ u).length _ 0 u value rfl
    simpa [Parse, Keyword.text, Keyword.value] using this
  · have := ParseHelper_keyword strtod .false ("false".toList ++ u).length _ 0 u value rfl
    simpa [Parse, Keyword.text, Keyword.value] using this
  · have := ParseHelper_keyword strtod .null ("null".toList ++ u).length _ 0 u value rfl
    simpa [Parse, Keyword.text, Keyword.value] using this
  · have hs1 : (quoted b ++ u).drop 0 = [] ++ '"' :: (b ++ '"' :: u) := by
      simp [quoted]
    have hs2 : (quoted b).drop 0 = [] ++ '"' :: (b ++ '"' :: []) := rfl
    rw [Parse, Parse, ParseHelper_quote strtod _ value hs1 (by simp),
      ParseHelper_quote strtod _ value hs2 (by simp),
      ParseString_ok value _ _ b u (by simpa using hs1) h,
      ParseString_ok value _ _ b [] (by simpa using hs2) h]

theorem Parse_trailing_content_witness :
    wellFormedBody "a\\nb".toList = true ∧
      (Parse textDouble ("true".toList ++ "x]".toList) .Uninitialized =
          .ret .kOK 4 (.Boolean true) ∧
        Parse textDouble ("false".toList ++ "x]".toList) .Uninitialized =
          .ret .kOK 5 (.Boolean false) ∧
        Parse textDouble ("null".toList ++ "x]".toList) .Uninitialized = .ret .kOK 4 .Null ∧
        Parse textDouble (quoted "a\\nb".toList ++ "x]".toList) .Uninitialized =
          Parse textDouble (quoted "a\\nb".toList) .Uninitialized) :=
  ⟨by decide, Parse_trailing_content textDouble "x]".toList "a\\nb".toList .Uninitialized
    (by decide)⟩

/-- C12: a `\u` escape needs four hex digits and is not decoded.  In a
quoted string scanned up to a `\u`: when the `\u` is not followed by four
characters from `0-9`, `a-f`, `A-F` (one of them is no hex digit, or fewer
than four characters are left), `Parse` returns `kInvalidToken`; when four
hex digits follow and the rest of the string is scanned up to its closing
quote, `Parse` returns `kOK` and the six characters stand in the `String` as
written. -/
theorem Parse_unicode_escape {Num : Type} (strtod : List Char → Option Num)
    (w pre rest post : List Char) (h1 h2 h3 h4 : Char) (value : Value Num)
    (hw : allSpace w = true) (hpre : scannedBody pre = true) :
    (startsFourHex rest = false →
        Parse strtod (w ++ '"' :: (pre ++ '\\' :: 'u' :: rest)) value =
          .ret .kInvalidToken w.length (.String [])) ∧
      (isHexDigit h1 = true → isHexDigit h2 = true → isHexDigit h3 = true →
        isHexDigit h4 = true → scannedBody post = true →
        Parse strtod (w ++ quoted (pre ++ '\\' :: 'u' :: h1 :: h2 :: h3 :: h4 :: post)) value =
          .ret .kOK (w.length + (pre ++ '\\' :: 'u' :: h1 :: h2 :: h3 :: h4 :: post).length + 2)
            (.String (pre ++ '\\' :: 'u' :: h1 :: h2 :: h3 :: h4 :: post))) := by
  constructor
  · intro hbad
    have hs : (w ++ '"' :: (pre ++ '\\' :: 'u' :: rest)).drop 0 =
        w ++ '"' :: (pre ++ '\\' :: 'u' :: rest) := rfl
    rw [Parse, ParseHelper_quote strtod _ value hs (allSpace_iff.mp hw), Nat.zero_add]
    exact ParseString_bad_unicode value _ _ pre rest (by simp) hpre hbad
  · intro x1 x2 x3 x4 hpost
    have hbody : scannedBody (pre ++ '\\' :: 'u' :: h1 :: h2 :: h3 :: h4 :: post) = true := by
      apply scannedBody_append pre.length pre rfl _ hpre
      rw [scannedBody_unicode]
      simp [startsFourHex, x1, x2, x3, x4, hpost]
    have hs : (w ++ quoted (pre ++ '\\' :: 'u' :: h1 :: h2 :: h3 :: h4 :: post)).drop 0 =
        w ++ '"' :: ((pre ++ '\\' :: 'u' :: h1 :: h2 :: h3 :: h4 :: post) ++ '"' :: []) := by
      simp [quoted]
    rw [Parse, ParseHelper_quote strtod _ value hs (allSpace_iff.mp hw), Nat.zero_add]
    exact ParseString_scanned value _ _ _ [] (by simp [quoted]) hbody

theorem Parse_unicode_escape_witness :
    allSpace " ".toList = true ∧ scannedBody "a".toList = true ∧
      ((startsFourHex "00g0\"".toList = false →
          Parse textDouble (" ".toList ++ '"' :: ("a".toList ++ '\\' :: 'u' :: "00g0\"".toList))
            .Uninitialized = .ret .kInvalidToken 1 (.String [])) ∧
        (isHexDigit '0' = true → isHexDigit '0' = true → isHexDigit '2' = true →
          isHexDigit 'f' = true → scannedBody "b".toList = true →
          Parse textDouble
              (" ".toList ++ quoted ("a".toList ++ '\\' :: 'u' :: '0' :: '0' :: '2' :: 'f' ::
                "b".toList)) .Uninitialized =
            .ret .kOK 11 (.String "a\\u002fb".toList))) :=
  ⟨by decide, by decide,
    Parse_unicode_escape textDouble " ".toList "a".toList "00g0\"".toList "b".toList
      '0' '0' '2' 'f' .Uninitialized (by decide) (by decide)⟩

/-- C4, at the failing input: on the object with the members
`"b": [[],[true]]` and `"a": [[],[]]` the loop of `ParseArray` pushes the
array `[]` onto the array that holds it.  `push_back` copy-constructs it, the
copy constructor `Value(const Value&)` calls `Copy` on a `type_` it has not
initialised, and the behaviour is undefined, where the claim has `kOK` with
the members in ascending key order. -/
theorem Parse_object_key_order_undefined {Num : Type} (strtod : List Char → Option Num)
    (value : Value Num) :
    Parse strtod "\x7b\"b\": [[],[true]], \"a\": [[],[]]\x7d".toList value = .undefined := rfl

/-- C5, at the failing input: on the object with the members
`"a": [{"x":[null]},null,[]]` and `"a": null` the loop of `ParseArray` pushes
the object of `"x":[null]` onto the array of the first member.  `push_back`
copy-constructs it, the copy constructor calls `Copy` on a `type_` it has not
initialised, and the behaviour is undefined, where the claim has `kOK` with
the one entry `"a": null`. -/
theorem Parse_object_duplicate_key_undefined {Num : Type} (strtod : List Char → Option Num)
    (value : Value Num) :
    Parse strtod "\x7b\"a\": [\x7b\"x\":[null]\x7d,null,[]], \"a\": null\x7d".toList value =
      .undefined := rfl

/-- C7, at the failing input: on `[[true,{"a":"c"}],,]` the loop of
`ParseArray` pushes the object of `"a":"c"` onto the inner array before it
comes to the two commas.  `push_back` copy-constructs it, the copy constructor
calls `Copy` on a `type_` it has not initialised, and the behaviour is
undefined, where the claim has `kInvalidToken`. -/
theorem Parse_array_stray_comma_undefined {Num : Type} (strtod : List Char → Option Num)
    (value : Value Num) :
    Parse strtod "[[true,\x7b\"a\":\"c\"\x7d],,]".toList value = .undefined := rfl

/-- C9, at the failing input: on the object with the members
`"b": [[],[true]]` and `"a": [[],[]]` and then `x` where a key is due, the
loop of `ParseArray` pushes the array `[]` onto the array that holds it before
`x` is reached.  `push_back` copy-constructs it, the copy constructor calls
`Copy` on a `type_` it has not initialised, and the behaviour is undefined,
where the claim has `kInvalidToken`. -/
theorem Parse_object_key_not_string_undefined {Num : Type}
    (strtod : List Char → Option Num) (value : Value Num) :
    Parse strtod "\x7b\"b\": [[],[true]], \"a\": [[],[]], x\x7d".toList value =
      .undefined := rfl

/-- C15, at the failing inputs: on `[true false]` and on the object of
`"a":true` and `"b":false` with a blank and no comma between them, the loops
of `ParseArray` and `ParseObject` skip a comma when one is there and go on
when none is: `Parse` returns `kOK` with both elements and with both members,
where the claim has `kInvalidToken`. -/
theorem Parse_missing_comma_ok {Num : Type} (strtod : List Char → Option Num)
    (value : Value Num) :
    Parse strtod "[true false]".toList value =
        .ret .kOK 12 (.Array [.Boolean true, .Boolean false]) ∧
      Parse strtod "\x7b\"a\":true \"b\":false\x7d".toList value =
        .ret .kOK 20
          (.Object [("a".toList, .Boolean true), ("b".toList, .Boolean false)]) :=
  ⟨rfl, rfl⟩

/-- C18, at the failing input: on `[[true,[true]],[true,[false]]]` the loop of
`ParseArray` pushes the array `[true]` onto the array that holds it.
`push_back` copy-constructs it, the copy constructor calls `Copy` on a `type_`
it has not initialised, and the behaviour is undefined: no value is given
whose rendering parses back to it, where the claim has the round trip on every
input that parses to a value without a `Number`. -/
theorem Parse_round_trip_undefined {Num : Type} (strtod : List Char → Option Num)
    (value : Value Num) :
    Parse strtod "[[true,[true]],[true,[false]]]".toList value = .undefined := rfl

/-- C19, at the failing input: on `[[null,[true,false]],[null,[false]]]` the
loop of `ParseArray` pushes the array `[true,false]` onto the array that holds
it.  `push_back` copy-constructs it, the copy constructor calls `Copy` on a
`type_` it has not initialised, and the behaviour is undefined: what the tree
holds where the copy went is not determined, where the claim has no
`Uninitialized` anywhere in a parsed tree. -/
theorem Parse_uninitialized_leak_undefined {Num : Type} (strtod : List Char → Option Num)
    (value : Value Num) :
    Parse strtod "[[null,[true,false]],[null,[false]]]".toList value = .undefined := rfl

/-- C20, at the failing inputs: on `[[],{"a":{"b":{"a":true},"a":true}}]` the
loop of `ParseArray` pushes the array `[]`, and on `[[true,{"a":"c"}]]` the
object of `"a":"c"`, onto the array that holds it.  `push_back`
copy-constructs it, the copy constructor calls `Copy` on a `type_` it has not
initialised, and the behaviour is undefined: nothing makes the call return,
where the claim has `Parse` terminate on every input. -/
theorem Parse_termination_undefined {Num : Type} (strtod : List Char → Option Num)
    (value : Value Num) :
    Parse strtod
        "[[],\x7b\"a\":\x7b\"b\":\x7b\"a\":true\x7d,\"a\":true\x7d\x7d]".toList value =
        .undefined ∧
      Parse strtod "[[true,\x7b\"a\":\"c\"\x7d]]".toList value = .undefined :=
  ⟨rfl, rfl⟩

end kobato
